import Mathlib

/-!
Verification development for the Signal Scoring & Narrative Consolidation
core of the solana-narrative-radar repository.

The Python modules `backend/engine/scorer.py`, `backend/engine/narrative_engine.py`
(the pre-clusterer) and `backend/engine/narrative_store.py` are shallowly
embedded below.  Python dictionaries with optional keys become structures with
`Option` fields read through `Option.getD` with the same defaults the source
passes to `dict.get`.  Python floats become `ℚ` (exact rational semantics).
ISO timestamp strings, which the source only ever round-trips through
`datetime.fromisoformat`/`isoformat` and compares, are modelled as rational
epoch seconds.  The wall clock (`datetime.now`) and the derived day-age of a
timestamp string are threaded as explicit parameters so that one run of the
pipeline is a pure function.
-/

namespace Radar

/-! ### Basic string helpers

Python string primitives (`str.lower`, `x in y`, `str.strip`, slicing) are
implemented over the character list of a `String` so that they compute by
kernel reduction. -/

/-- ASCII lowercasing, modelling Python `str.lower()` on the ASCII text the
pipeline handles. -/
def lowerStr (s : String) : String := String.mk (s.data.map Char.toLower)

/-- Is `n` a prefix of `h`?  (Helper for substring containment.) -/
def isPre : List Char → List Char → Bool
  | [], _ => true
  | _ :: _, [] => false
  | a :: as, b :: bs => a == b && isPre as bs

/-- Does the character list contain `n` as a contiguous run?  Models Python
`n in h` on strings. -/
def hasSub (n : List Char) : List Char → Bool
  | [] => isPre n []
  | c :: cs => isPre n (c :: cs) || hasSub n cs

/-- Python `needle in hay` for strings. -/
def strContains (needle hay : String) : Bool := hasSub needle.data hay.data

/-- Python truthiness chain `a or b or ... or ""` over optional string fields:
the first present, non-empty string, else `""`. -/
def firstStr : List (Option String) → String
  | [] => ""
  | none :: rest => firstStr rest
  | some v :: rest => if v = "" then firstStr rest else v

/-- Python `str.strip()` (whitespace at both ends). -/
def trimStr (s : String) : String :=
  String.mk (((s.data.dropWhile (·.isWhitespace)).reverse.dropWhile (·.isWhitespace)).reverse)

/-- Python slice `s[:n]`. -/
def takeStr (n : Nat) (s : String) : String := String.mk (s.data.take n)

/-- Truthiness of an optional string field (present and non-empty). -/
def truthyStr : Option String → Bool
  | some v => v ≠ ""
  | none => false

/-- Truthiness of an optional numeric field (present and non-zero). -/
def truthyNum : Option ℚ → Bool
  | some v => v ≠ 0
  | none => false

/-! ### The Signal record (`scorer.py`)

One collector record.  Every key the scorer reads is an optional field;
`none` models an absent key, and each read applies the same default the
source passes to `dict.get`. -/

/-- The five named sub-scores written to `score_breakdown`. -/
structure Breakdown where
  velocity : ℚ
  convergence : ℚ
  novelty : ℚ
  authority : ℚ
  quality : ℚ
deriving DecidableEq, Repr

structure Signal where
  source : Option String := none
  name : Option String := none
  description : Option String := none
  content : Option String := none
  category : Option String := none
  url : Option String := none
  html_url : Option String := none
  signal_type : Option String := none
  author : Option String := none
  handle : Option String := none
  created_at : Option String := none
  collected_at : Option String := none
  pushed_at : Option String := none
  stars : Option ℚ := none
  engagement : Option ℚ := none
  engagement_score : Option ℚ := none
  change_7d : Option ℚ := none
  tvl : Option ℚ := none
  topics : Option (List String) := none
  score : Option ℚ := none
  score_breakdown : Option Breakdown := none
deriving DecidableEq, Repr

/-! ### Topic extractor (`extract_topics`) -/

/-- The static keyword table of `extract_topics`, in source order. -/
def topicKeywordTable : List (String × List String) :=
  [("ai_agents", ["ai agent", "agent", "autonomous", "llm", "chatbot", "eliza"]),
   ("defi", ["defi", "lending", "borrowing", "yield", "amm", "dex", "swap", "liquidity"]),
   ("payments", ["payment", "pay", "transfer", "remittance", "stablecoin"]),
   ("nft", ["nft", "collectible", "metaplex", "digital art"]),
   ("gaming", ["game", "gaming", "play-to-earn", "gamefi"]),
   ("depin", ["depin", "physical", "iot", "sensor", "infrastructure"]),
   ("social", ["social", "community", "messaging", "chat"]),
   ("privacy", ["privacy", "zero-knowledge", "zk", "confidential"]),
   ("rwa", ["rwa", "real world", "tokenized", "real-world asset"]),
   ("trading", ["trading", "perp", "perpetual", "futures", "options", "copy-trad"]),
   ("staking", ["staking", "stake", "liquid staking", "validator"]),
   ("bridge", ["bridge", "cross-chain", "interop", "wormhole"]),
   ("identity", ["identity", "did", "credential", "reputation"]),
   ("memecoins", ["meme", "memecoin", "pump.fun", "fair launch"]),
   ("infrastructure", ["infra", "rpc", "indexer", "sdk", "framework", "tooling"])]

/-- `extract_topics(signal)`: lowercased concatenation of
name/description/content/category/topics, keyword substring match per topic,
`["other"]` when nothing matches. -/
def extractTopics (s : Signal) : List String :=
  let text := lowerStr (String.intercalate " "
    [s.name.getD "", s.description.getD "", s.content.getD "", s.category.getD "",
     String.intercalate " " (s.topics.getD [])])
  let matched := (topicKeywordTable.filter
    (fun p => p.2.any (fun kw => strContains kw text))).map Prod.fst
  if matched = [] then ["other"] else matched

/-! ### Batch-level aggregates of `score_signals`

The source builds `topic_sources`, `entity_sources`, `signals_by_date` and
`topic_by_date` as (default-)dicts in one pass over the batch; the scorer only
ever reads per-key counts, the number of distinct keys, and the list of
values.  Those observations are embedded directly: a dict count lookup is a
`countP` over the batch and a dict's key set is a `dedup` of the projected
batch. -/

/-- `_normalize_source`. -/
def normalizeSource (source : String) : String :=
  if source = "twitter" ∨ source = "twitter_nitter" ∨ source = "twitter_syndication" then "twitter"
  else if source = "solana_rpc" ∨ source = "solscan" then "onchain"
  else if source = "defillama" ∨ source = "defillama_yields" then "defillama"
  else source

/-- Normalized source of one signal (`_normalize_source(s.get("source", "unknown"))`). -/
def sigSource (s : Signal) : String := normalizeSource (s.source.getD "unknown")

/-- Date bucket of one signal: `_parse_date_str(s.get("collected_at") or s.get("created_at") or "") or today`. -/
def dateOf (today : String) (s : Signal) : String :=
  let collected := firstStr [s.collected_at, s.created_at]
  if collected = "" then today else takeStr 10 collected

/-- `(s.get("name") or "").strip().lower()` — the entity key of a signal. -/
def sigEntity (s : Signal) : String := lowerStr (trimStr (s.name.getD ""))

/-- Distinct dates present in `signals_by_date` (its key set). -/
def sigDates (today : String) (sigs : List Signal) : List String :=
  (sigs.map (dateOf today)).dedup

/-- `signals_by_date[d]`. -/
def dateCount (today : String) (sigs : List Signal) (d : String) : Nat :=
  sigs.countP (fun s => dateOf today s == d)

/-- Distinct dates in `topic_by_date[t]` (its key set; empty list models
`topic_by_date.get(t, {})` for an absent topic). -/
def topicDates (today : String) (sigs : List Signal) (t : String) : List String :=
  ((sigs.filter (fun s => t ∈ extractTopics s)).map (dateOf today)).dedup

/-- `topic_by_date[t][d]`. -/
def topicDateCount (today : String) (sigs : List Signal) (t d : String) : Nat :=
  (sigs.filter (fun s => t ∈ extractTopics s)).countP (fun s => dateOf today s == d)

/-- `len(topic_sources.get(t, {}))`: the number of distinct normalized source
types seen for topic `t` in the batch. -/
def topicSrcCnt (sigs : List Signal) (t : String) : Nat :=
  ((sigs.filter (fun s => t ∈ extractTopics s)).map sigSource).dedup.length

/-- `len(entity_sources[e])`: distinct normalized source types of entity `e`. -/
def entitySrcCnt (sigs : List Signal) (e : String) : Nat :=
  ((sigs.filter (fun s => sigEntity s == e)).map sigSource).dedup.length

/-- `e in cross_source_entities`: a non-empty entity seen under at least two
distinct normalized source types. -/
def isCrossEntity (sigs : List Signal) (e : String) : Bool :=
  e ≠ "" && 2 ≤ entitySrcCnt sigs e

/-! ### The five sub-scores -/

/-- The three-tier ratio adjustment of the batch acceleration block
(`ratio > 2.0 → +25`, `> 1.5 → +15`, `< 0.8 → −10`). -/
def accelAdj (ratio : ℚ) : ℚ :=
  if 2 < ratio then 25 else if (3 : ℚ)/2 < ratio then 15
  else if ratio < (4 : ℚ)/5 then -10 else 0

/-- `avg = sum(all_counts) / len(all_counts) if all_counts else 1`. -/
def avgOf (counts : List Nat) : ℚ :=
  if counts ≠ [] then (counts.sum : ℚ) / (counts.length : ℚ) else 1

/-- The guarded ratio adjustment `if avg > 0: ratio = today_count / avg; ...`. -/
def ratioAdj (todayCnt : Nat) (counts : List Nat) : ℚ :=
  if 0 < avgOf counts then accelAdj ((todayCnt : ℚ) / avgOf counts) else 0

/-- Batch-level temporal acceleration adjustment of `calculate_velocity`
(`signals_by_date` truthiness is non-emptiness of its key set). -/
def tempAdj (today : String) (sigs : List Signal) : ℚ :=
  if sigDates today sigs ≠ [] ∧ today ≠ "" then
    ratioAdj (dateCount today sigs today) ((sigDates today sigs).map (dateCount today sigs))
  else 0

/-- The two-tier per-topic ratio boost (`> 2.0 → max 15`, `> 1.5 → max 8`). -/
def topicRatioBoost (best tratio : ℚ) : ℚ :=
  if 2 < tratio then max best 15 else if (3 : ℚ)/2 < tratio then max best 8 else best

/-- One step of the per-topic acceleration loop of `calculate_velocity`
(`t_avg` guard, then the two-tier ratio boost). -/
def topicStep (today : String) (sigs : List Signal) (best : ℚ) (t : String) : ℚ :=
  if 0 < avgOf ((topicDates today sigs t).map (topicDateCount today sigs t)) then
    topicRatioBoost best ((topicDateCount today sigs t today : ℚ) /
      avgOf ((topicDates today sigs t).map (topicDateCount today sigs t)))
  else best

/-- Per-topic acceleration boost of `calculate_velocity`.  `topic_by_date` is
truthy exactly when the batch is non-empty (every signal deposits at least one
topic/date pair into it). -/
def topicBoost (today : String) (sigs : List Signal) (topics : List String) : ℚ :=
  if sigs ≠ [] ∧ topics ≠ [] ∧ today ≠ "" then
    topics.foldl (topicStep today sigs) 0
  else 0

/-- The source-specific additions of `calculate_velocity` (the `score +=`
blocks; the guards are on distinct raw source strings, so summing the guarded
terms is the sequential accumulation of the source). -/
def srcVelocityAdd (s : Signal) : ℚ :=
  (if s.source.getD "" = "defillama" then
      (if 50 < |s.change_7d.getD 0| then 40 else if 20 < |s.change_7d.getD 0| then 25
       else if 10 < |s.change_7d.getD 0| then 15 else 0)
    else 0)
  + (if s.source.getD "" = "solana_rpc" ∨ s.source.getD "" = "birdeye" ∨
        s.source.getD "" = "solscan" then
      (if s.signal_type.getD "" = "token_trending" then 25
       else if s.signal_type.getD "" = "network_activity" then 10 else 0)
    else 0)
  + (if s.source.getD "" = "twitter" ∨ s.source.getD "" = "twitter_nitter" ∨
        s.source.getD "" = "twitter_syndication" ∨ s.source.getD "" = "reddit" then
      ((if 100 < s.engagement.getD 0 then 30 else if 50 < s.engagement.getD 0 then 20
        else if 10 < s.engagement.getD 0 then 10 else 0)
       + (if s.signal_type.getD "" = "kol_tweet" then 10 else 0))
    else 0)
  + (if s.source.getD "" = "defillama_yields" then 15 else 0)
  + (if s.source.getD "" = "github" then
      (if 100 < s.stars.getD 0 then 20 else if 50 < s.stars.getD 0 then 12
       else if 10 < s.stars.getD 0 then 5 else 0)
    else 0)

/-- `calculate_velocity` (baseline 50, temporal and per-topic acceleration,
source-specific additions, capped at 100). -/
def velocityScore (today : String) (sigs : List Signal) (s : Signal)
    (topics : List String) : ℚ :=
  min (50 + tempAdj today sigs + topicBoost today sigs topics + srcVelocityAdd s) 100

/-- The distinct-source step function of `_calculate_convergence`. -/
def convBase (best : Nat) : ℚ :=
  if 4 ≤ best then 95 else if best = 3 then 75 else if best = 2 then 50 else 20

/-- `best_distinct`: the maximum distinct-source count over the signal's topics. -/
def bestDistinct (sigs : List Signal) (topics : List String) : Nat :=
  topics.foldl (fun b t => max b (topicSrcCnt sigs t)) 0

/-- `_calculate_convergence`. -/
def convergenceScore (sigs : List Signal) (s : Signal) (topics : List String) : ℚ :=
  if topics = [] then 20
  else if sigEntity s ≠ "" ∧ isCrossEntity sigs (sigEntity s) then
    min (convBase (bestDistinct sigs topics) + 20) 100
  else convBase (bestDistinct sigs topics)

/-- The age bucketing of `calculate_novelty`. -/
def ageBucket (d : Int) : ℚ :=
  if d < 7 then 90 else if d < 14 then 70 else if d < 30 then 50 else 30

/-- The base novelty score before the `new_repo` boost.  `ageDays c` models
`(datetime.now(tz) - datetime.fromisoformat(c)).days`; `none` models the
`except` branch for an unparsable timestamp. -/
def noveltyBase (ageDays : String → Option Int) (s : Signal) : ℚ :=
  if s.created_at.getD "" ≠ "" then
    match ageDays (s.created_at.getD "") with
    | some d => ageBucket d
    | none => 50
  else 50

/-- `calculate_novelty`. -/
def noveltyScore (ageDays : String → Option Int) (s : Signal) : ℚ :=
  min (if s.signal_type.getD "" = "new_repo" then noveltyBase ageDays s + 15
       else noveltyBase ageDays s) 100

/-- The known-KOL handle allow-list of `scorer.py`. -/
def solanaKols : List String :=
  ["aaboronkov", "aaboronkov_", "0xmert_", "rajgokal", "armaniferrante",
   "buffalu__", "solaboratory", "heaboratory", "taboratory", "anatoly_yakovenko",
   "jaraboratory", "solana_devs", "superteam", "jaboratory", "solana",
   "jito_sol", "mariaboratory", "drift_trade", "jupiterexchange",
   "helaboratory", "marginfi", "tensorhq", "kamino_finance", "raaboratory",
   "solendprotocol", "phantom", "backaboratory", "madlads", "bonk_inu",
   "waboratory", "solblaze_org"]

/-- Python `.strip("@")`. -/
def stripAt (s : String) : String :=
  String.mk (((s.data.dropWhile (· == '@')).reverse.dropWhile (· == '@')).reverse)

/-- The GitHub star tiers of `calculate_authority`. -/
def starTier (stars prev : ℚ) : ℚ :=
  if 500 < stars then 90 else if 100 < stars then 70 else if 20 < stars then 60 else prev

/-- The recent-push boost of `calculate_authority`. -/
def pushBoost (ageDays : String → Option Int) (s : Signal) (g : ℚ) : ℚ :=
  if s.pushed_at.getD "" ≠ "" then
    match ageDays (s.pushed_at.getD "") with
    | some d => if d < 7 then min (g + 15) 100 else if d < 30 then min (g + 5) 100 else g
    | none => g
  else g

/-- The `if source == "github":` block of `calculate_authority` (star tiers
plus recent-push boost), applied to the running score `prev`. -/
def authGithub (ageDays : String → Option Int) (s : Signal) (prev : ℚ) : ℚ :=
  if s.source.getD "" = "github" then
    pushBoost ageDays s (starTier (s.stars.getD 0) prev)
  else prev

/-- The engagement tiers of the twitter block (the block never reads the
running score; its fallbacks are constants). -/
def twitterTier (s : Signal) : ℚ :=
  if 500 < s.engagement_score.getD 0 then 95
  else if 200 < s.engagement_score.getD 0 then 85
  else if 50 < s.engagement_score.getD 0 then 70
  else if 10 < s.engagement_score.getD 0 then 55
  else if s.signal_type.getD "" = "kol_tweet" then 80 else 55

/-- The twitter block of `calculate_authority` (engagement tiers plus KOL
handle boost on `(s.get("author") or s.get("handle") or "").lower().strip("@")`). -/
def authTwitter (s : Signal) (prev : ℚ) : ℚ :=
  if s.source.getD "" = "twitter" ∨ s.source.getD "" = "twitter_nitter" ∨
      s.source.getD "" = "twitter_syndication" then
    if stripAt (lowerStr (firstStr [s.author, s.handle])) ∈ solanaKols then
      min (twitterTier s + 15) 100
    else twitterTier s
  else prev

/-- The engagement tiers of the reddit block. -/
def redditTier (s : Signal) (prev : ℚ) : ℚ :=
  if 100 < s.engagement.getD 0 then 75 else if 30 < s.engagement.getD 0 then 60 else prev

/-- The reddit block of `calculate_authority`. -/
def authReddit (s : Signal) (prev : ℚ) : ℚ :=
  if s.source.getD "" = "reddit" then
    if s.signal_type.getD "" = "dev_discussion" then redditTier s prev + 10
    else redditTier s prev
  else prev

/-- The defillama TVL block of `calculate_authority`. -/
def authDefillama (s : Signal) (prev : ℚ) : ℚ :=
  if s.source.getD "" = "defillama" then
    if 100000000 < s.tvl.getD 0 then 90 else if 10000000 < s.tvl.getD 0 then 70 else prev
  else prev

/-- The flat-score source blocks of `calculate_authority`, applied in source
order (defillama_yields 70, then solana_rpc/solscan 85, then birdeye 70). -/
def authFlat (s : Signal) (prev : ℚ) : ℚ :=
  if s.source.getD "" = "birdeye" then 70
  else if s.source.getD "" = "solana_rpc" ∨ s.source.getD "" = "solscan" then 85
  else if s.source.getD "" = "defillama_yields" then 70
  else prev

/-- `calculate_authority`: baseline 50 run through the sequence of
source-specific reassignment blocks, capped at 100. -/
def authorityScore (ageDays : String → Option Int) (s : Signal) : ℚ :=
  min (authFlat s (authDefillama s (authReddit s (authTwitter s (authGithub ageDays s 50))))) 100

/-- The raw additive quality score (out of 65) of `_calculate_quality`. -/
def qualityRaw (sigs : List Signal) (s : Signal) : ℚ :=
  (if truthyStr s.url ∨ truthyStr s.html_url then 10 else 0)
  + (if truthyNum s.engagement ∨ truthyNum s.engagement_score then 10 else 0)
  + (if 100 < (firstStr [s.content, s.description]).length then 10 else 0)
  + (if s.source.getD "" = "solana_rpc" ∨ s.source.getD "" = "solscan" ∨
        s.source.getD "" = "defillama" ∨ s.source.getD "" = "defillama_yields" ∨
        s.source.getD "" = "birdeye" then 15
     else if s.source.getD "" = "github" then 10 else 0)
  + (if sigEntity s ≠ "" ∧ isCrossEntity sigs (sigEntity s) then 20 else 0)

/-- `_calculate_quality` (raw additive score out of 65, normalized to 0–100). -/
def qualityScore (sigs : List Signal) (s : Signal) : ℚ :=
  min (qualityRaw sigs s / 65 * 100) 100

/-- `round(x, 1)`: rounding to one decimal place (the bounds-relevant
behaviour; Python's tie-breaking on binary floats plays no role in any claim). -/
def round1 (q : ℚ) : ℚ := ((⌊q * 10 + 1/2⌋ : ℤ) : ℚ) / 10

/-- The composite weighting of `score_signals`. -/
def compositeScore (v c n a q : ℚ) : ℚ :=
  v * (20/100) + c * (30/100) + n * (15/100) + a * (15/100) + q * (20/100)

/-- The per-signal body of the scoring loop: compute the five sub-scores
against the batch aggregates and write `score`, `score_breakdown`, `topics`. -/
def annotateSignal (ageDays : String → Option Int) (today : String)
    (sigs : List Signal) (s : Signal) : Signal :=
  let topics := extractTopics s
  let v := velocityScore today sigs s topics
  let c := convergenceScore sigs s topics
  let n := noveltyScore ageDays s
  let a := authorityScore ageDays s
  let q := qualityScore sigs s
  { s with
    score := some (round1 (compositeScore v c n a q)),
    score_breakdown := some ⟨round1 v, round1 c, round1 n, round1 a, round1 q⟩,
    topics := some topics }

/-- Stable insertion of `a` into a list (before the first element `b` with
`le a b`). -/
def insSorted (le : α → α → Bool) (a : α) : List α → List α
  | [] => [a]
  | b :: bs => if le a b then a :: b :: bs else b :: insSorted le a bs

/-- Stable insertion sort; extensionally Python's stable `sorted`. -/
def sortBy (le : α → α → Bool) : List α → List α
  | [] => []
  | a :: as => insSorted le a (sortBy le as)

/-- Descending-by-score order used by `sorted(..., key=lambda x: x["score"], reverse=True)`. -/
def scoreGe (a b : Signal) : Bool := b.score.getD 0 ≤ a.score.getD 0

/-- `score_signals`: annotate every signal against the batch aggregates and
return the batch sorted descending by composite score (stably, as Python's
`sorted`). -/
def scoreSignals (ageDays : String → Option Int) (today : String)
    (sigs : List Signal) : List Signal :=
  sortBy scoreGe (sigs.map (annotateSignal ageDays today sigs))

/-! ### Sorting lemmas -/

theorem insSorted_perm (le : α → α → Bool) (a : α) (l : List α) :
    (insSorted le a l).Perm (a :: l) := by
  induction l with
  | nil => simp [insSorted]
  | cons b bs ih =>
    simp only [insSorted]
    split
    · exact List.Perm.refl _
    · exact ((ih.cons b).trans (List.Perm.swap a b bs))

theorem sortBy_perm (le : α → α → Bool) (l : List α) : (sortBy le l).Perm l := by
  induction l with
  | nil => simp [sortBy]
  | cons a as ih => exact (insSorted_perm le a (sortBy le as)).trans (ih.cons a)

theorem mem_sortBy {le : α → α → Bool} {a : α} {l : List α} :
    a ∈ sortBy le l ↔ a ∈ l := (sortBy_perm le l).mem_iff

theorem sortBy_of_pairwise {le : α → α → Bool} {l : List α}
    (h : l.Pairwise (fun a b => le a b)) : sortBy le l = l := by
  induction l with
  | nil => rfl
  | cons a as ih =>
    rw [List.pairwise_cons] at h
    rw [sortBy, ih h.2]
    cases as with
    | nil => rfl
    | cons b bs =>
      rw [insSorted, if_pos (h.1 b (by simp))]

/-! ### Bounds of the five sub-scores (claim C1 support) -/

theorem min100_mem {x : ℚ} (hx : 0 ≤ x) : 0 ≤ min x 100 ∧ min x 100 ≤ 100 :=
  ⟨le_min hx (by norm_num), min_le_right _ _⟩

theorem accelAdj_bounds (r : ℚ) : -10 ≤ accelAdj r ∧ accelAdj r ≤ 25 := by
  unfold accelAdj; split_ifs <;> norm_num

theorem ratioAdj_bounds (todayCnt : Nat) (counts : List Nat) :
    -10 ≤ ratioAdj todayCnt counts ∧ ratioAdj todayCnt counts ≤ 25 := by
  unfold ratioAdj
  split
  · exact accelAdj_bounds _
  · norm_num

theorem tempAdj_bounds (today : String) (sigs : List Signal) :
    -10 ≤ tempAdj today sigs ∧ tempAdj today sigs ≤ 25 := by
  unfold tempAdj
  split
  · exact ratioAdj_bounds _ _
  · norm_num

theorem topicRatioBoost_bounds {best : ℚ} (r : ℚ) (h0 : 0 ≤ best) (h15 : best ≤ 15) :
    0 ≤ topicRatioBoost best r ∧ topicRatioBoost best r ≤ 15 := by
  unfold topicRatioBoost
  split_ifs <;>
    exact ⟨by simp [le_max_iff, h0], by simp [max_le_iff, h15] <;> norm_num⟩

theorem topicStep_bounds (today : String) (sigs : List Signal) {best : ℚ} (t : String)
    (h0 : 0 ≤ best) (h15 : best ≤ 15) :
    0 ≤ topicStep today sigs best t ∧ topicStep today sigs best t ≤ 15 := by
  unfold topicStep
  split
  · exact topicRatioBoost_bounds _ h0 h15
  · exact ⟨h0, h15⟩

theorem topicBoost_bounds (today : String) (sigs : List Signal) (topics : List String) :
    0 ≤ topicBoost today sigs topics ∧ topicBoost today sigs topics ≤ 15 := by
  unfold topicBoost
  split
  · suffices h : ∀ (ts : List String) (b : ℚ), 0 ≤ b → b ≤ 15 →
        0 ≤ ts.foldl (topicStep today sigs) b ∧ ts.foldl (topicStep today sigs) b ≤ 15 by
      exact h topics 0 le_rfl (by norm_num)
    intro ts
    induction ts with
    | nil => intro b h0 h15; exact ⟨h0, h15⟩
    | cons t ts ih =>
      intro b h0 h15
      simp only [List.foldl_cons]
      obtain ⟨g0, g15⟩ := topicStep_bounds today sigs t h0 h15
      exact ih _ g0 g15
  · norm_num

theorem srcVelocityAdd_nonneg (s : Signal) : 0 ≤ srcVelocityAdd s := by
  unfold srcVelocityAdd
  have h : ∀ x y z w u : ℚ, 0 ≤ x → 0 ≤ y → 0 ≤ z → 0 ≤ w → 0 ≤ u →
      0 ≤ x + y + z + w + u := by intros; linarith
  apply h <;> split_ifs <;> norm_num

theorem velocityScore_bounds (today : String) (sigs : List Signal) (s : Signal)
    (topics : List String) :
    0 ≤ velocityScore today sigs s topics ∧ velocityScore today sigs s topics ≤ 100 := by
  unfold velocityScore
  have h1 := tempAdj_bounds today sigs
  have h2 := topicBoost_bounds today sigs topics
  have h3 := srcVelocityAdd_nonneg s
  exact min100_mem (by linarith [h1.1, h2.1])

theorem convBase_bounds (b : Nat) : 0 ≤ convBase b ∧ convBase b ≤ 100 := by
  unfold convBase; split_ifs <;> norm_num

theorem convergenceScore_bounds (sigs : List Signal) (s : Signal) (topics : List String) :
    0 ≤ convergenceScore sigs s topics ∧ convergenceScore sigs s topics ≤ 100 := by
  unfold convergenceScore
  split
  · norm_num
  · split
    · exact min100_mem (by linarith [(convBase_bounds (bestDistinct sigs topics)).1])
    · exact convBase_bounds _

theorem noveltyBase_bounds (ageDays : String → Option Int) (s : Signal) :
    30 ≤ noveltyBase ageDays s ∧ noveltyBase ageDays s ≤ 90 := by
  unfold noveltyBase ageBucket
  split
  · rcases ageDays (s.created_at.getD "") with _ | d
    · norm_num
    · simp only []; split_ifs <;> norm_num
  · norm_num

theorem noveltyScore_bounds (ageDays : String → Option Int) (s : Signal) :
    0 ≤ noveltyScore ageDays s ∧ noveltyScore ageDays s ≤ 100 := by
  unfold noveltyScore
  have h := noveltyBase_bounds ageDays s
  apply min100_mem
  split <;> linarith [h.1]

theorem starTier_nonneg {stars prev : ℚ} (h : 0 ≤ prev) : 0 ≤ starTier stars prev := by
  unfold starTier; split_ifs <;> first | assumption | norm_num

theorem pushBoost_nonneg (ageDays : String → Option Int) (s : Signal) {g : ℚ}
    (h : 0 ≤ g) : 0 ≤ pushBoost ageDays s g := by
  unfold pushBoost
  split
  · rcases ageDays (s.pushed_at.getD "") with _ | d
    · exact h
    · simp only []
      split_ifs <;> first
        | assumption
        | exact le_min (by linarith) (by norm_num)
  · exact h

theorem authGithub_nonneg (ageDays : String → Option Int) (s : Signal) {prev : ℚ}
    (h : 0 ≤ prev) : 0 ≤ authGithub ageDays s prev := by
  unfold authGithub
  split
  · exact pushBoost_nonneg ageDays s (starTier_nonneg h)
  · exact h

theorem twitterTier_nonneg (s : Signal) : 0 ≤ twitterTier s := by
  unfold twitterTier; split_ifs <;> norm_num

theorem authTwitter_nonneg (s : Signal) {prev : ℚ} (h : 0 ≤ prev) :
    0 ≤ authTwitter s prev := by
  unfold authTwitter
  have ht := twitterTier_nonneg s
  split
  · split
    · exact le_min (by linarith) (by norm_num)
    · exact ht
  · exact h

theorem redditTier_nonneg (s : Signal) {prev : ℚ} (h : 0 ≤ prev) :
    0 ≤ redditTier s prev := by
  unfold redditTier; split_ifs <;> first | assumption | norm_num

theorem authReddit_nonneg (s : Signal) {prev : ℚ} (h : 0 ≤ prev) :
    0 ≤ authReddit s prev := by
  unfold authReddit
  have hr := redditTier_nonneg s h
  split
  · split <;> linarith
  · exact h

theorem authDefillama_nonneg (s : Signal) {prev : ℚ} (h : 0 ≤ prev) :
    0 ≤ authDefillama s prev := by
  unfold authDefillama
  split_ifs <;> first | assumption | norm_num

theorem authFlat_nonneg (s : Signal) {prev : ℚ} (h : 0 ≤ prev) :
    0 ≤ authFlat s prev := by
  unfold authFlat
  split_ifs <;> first | assumption | norm_num

theorem authorityScore_bounds (ageDays : String → Option Int) (s : Signal) :
    0 ≤ authorityScore ageDays s ∧ authorityScore ageDays s ≤ 100 := by
  unfold authorityScore
  exact min100_mem (authFlat_nonneg _ (authDefillama_nonneg _ (authReddit_nonneg _
    (authTwitter_nonneg _ (authGithub_nonneg _ _ (by norm_num))))))

theorem qualityRaw_nonneg (sigs : List Signal) (s : Signal) : 0 ≤ qualityRaw sigs s := by
  unfold qualityRaw
  have h : ∀ x y z w u : ℚ, 0 ≤ x → 0 ≤ y → 0 ≤ z → 0 ≤ w → 0 ≤ u →
      0 ≤ x + y + z + w + u := by intros; linarith
  apply h <;> split_ifs <;> norm_num

theorem qualityScore_bounds (sigs : List Signal) (s : Signal) :
    0 ≤ qualityScore sigs s ∧ qualityScore sigs s ≤ 100 := by
  unfold qualityScore
  have h := qualityRaw_nonneg sigs s
  apply min100_mem
  positivity

theorem compositeScore_bounds {v c n a q : ℚ}
    (hv : 0 ≤ v ∧ v ≤ 100) (hc : 0 ≤ c ∧ c ≤ 100) (hn : 0 ≤ n ∧ n ≤ 100)
    (ha : 0 ≤ a ∧ a ≤ 100) (hq : 0 ≤ q ∧ q ≤ 100) :
    0 ≤ compositeScore v c n a q ∧ compositeScore v c n a q ≤ 100 := by
  unfold compositeScore
  obtain ⟨hv1, hv2⟩ := hv; obtain ⟨hc1, hc2⟩ := hc; obtain ⟨hn1, hn2⟩ := hn
  obtain ⟨ha1, ha2⟩ := ha; obtain ⟨hq1, hq2⟩ := hq
  constructor <;> nlinarith

theorem round1_in_range {q : ℚ} (h0 : 0 ≤ q) (h100 : q ≤ 100) :
    0 ≤ round1 q ∧ round1 q ≤ 100 := by
  unfold round1
  constructor
  · apply div_nonneg _ (by norm_num)
    have : (0:ℚ) ≤ q * 10 + 1/2 := by linarith
    exact_mod_cast Int.floor_nonneg.mpr this
  · rw [div_le_iff₀ (by norm_num : (0:ℚ) < 10)]
    have h2 : ⌊q * 10 + 1/2⌋ ≤ ⌊(2001 : ℚ)/2⌋ := Int.floor_le_floor (by linarith)
    have h3 : ⌊(2001 : ℚ)/2⌋ = 1000 := by norm_num
    have h4 : (⌊q * 10 + 1/2⌋ : ℚ) ≤ 1000 := by exact_mod_cast h3 ▸ h2
    linarith

/-- C1: every signal returned by `score_signals` carries a `score_breakdown`
whose five sub-scores (velocity, convergence, novelty, authority, quality)
all lie in [0, 100], and a composite `score`
(0.20·velocity + 0.30·convergence + 0.15·novelty + 0.15·authority +
0.20·quality, rounded to one decimal) that also lies in [0, 100]. -/
theorem c1_scores_in_range (ageDays : String → Option Int) (today : String)
    (sigs : List Signal) (s : Signal) (hs : s ∈ scoreSignals ageDays today sigs) :
    ∃ b sc, s.score_breakdown = some b ∧ s.score = some sc ∧
      0 ≤ b.velocity ∧ b.velocity ≤ 100 ∧ 0 ≤ b.convergence ∧ b.convergence ≤ 100 ∧
      0 ≤ b.novelty ∧ b.novelty ≤ 100 ∧ 0 ≤ b.authority ∧ b.authority ≤ 100 ∧
      0 ≤ b.quality ∧ b.quality ≤ 100 ∧ 0 ≤ sc ∧ sc ≤ 100 := by
  rw [scoreSignals, mem_sortBy] at hs
  obtain ⟨s₀, hs₀, rfl⟩ := List.mem_map.mp hs
  have hv := velocityScore_bounds today sigs s₀ (extractTopics s₀)
  have hc := convergenceScore_bounds sigs s₀ (extractTopics s₀)
  have hn := noveltyScore_bounds ageDays s₀
  have ha := authorityScore_bounds ageDays s₀
  have hq := qualityScore_bounds sigs s₀
  have hcomp := compositeScore_bounds hv hc hn ha hq
  have rv := round1_in_range hv.1 hv.2
  have rc := round1_in_range hc.1 hc.2
  have rn := round1_in_range hn.1 hn.2
  have ra := round1_in_range ha.1 ha.2
  have rq := round1_in_range hq.1 hq.2
  have rt := round1_in_range hcomp.1 hcomp.2
  exact ⟨_, _, rfl, rfl, rv.1, rv.2, rc.1, rc.2, rn.1, rn.2, ra.1, ra.2, rq.1, rq.2,
    rt.1, rt.2⟩

/-- Witness for C1: the singleton batch of the all-defaults signal. -/
theorem c1_scores_in_range_witness :
    ∃ b sc,
      (annotateSignal (fun _ => none) "2025-01-01" [{}] {}).score_breakdown = some b ∧
      (annotateSignal (fun _ => none) "2025-01-01" [{}] {}).score = some sc ∧
      0 ≤ b.velocity ∧ b.velocity ≤ 100 ∧ 0 ≤ b.convergence ∧ b.convergence ≤ 100 ∧
      0 ≤ b.novelty ∧ b.novelty ≤ 100 ∧ 0 ≤ b.authority ∧ b.authority ≤ 100 ∧
      0 ≤ b.quality ∧ b.quality ≤ 100 ∧ 0 ≤ sc ∧ sc ≤ 100 :=
  c1_scores_in_range (fun _ => none) "2025-01-01" [{}] _
    (by simp [scoreSignals, sortBy, insSorted])

/-- C7 (amended): on well-formed signals — every field either absent or of
its documented type — `extract_topics` and `score_signals` are total: each
missing field is read through the `dict.get` default (0, `""`, `[]`),
embedded here as `Option` fields with `Option.getD`; `extract_topics` always
produces at least one tag, and `score_signals` returns exactly the input
signals (each carrying its annotations): its output is a permutation of the
annotated input batch, so no signal is ever dropped. Wrongly-typed fields
are NOT treated as zero values: they make the source raise (see the
counterexample on the dynamically-typed engagement comparison). -/
theorem c7_scorer_total_no_drop (ageDays : String → Option Int) (today : String)
    (sigs : List Signal) :
    (scoreSignals ageDays today sigs).Perm
      (sigs.map (annotateSignal ageDays today sigs)) ∧
    (scoreSignals ageDays today sigs).length = sigs.length ∧
    ∀ s : Signal, extractTopics s ≠ [] := by
  refine ⟨sortBy_perm _ _, ?_, ?_⟩
  · rw [scoreSignals, (sortBy_perm _ _).length_eq, List.length_map]
  · intro s
    unfold extractTopics
    dsimp only
    split
    · simp
    · assumption

/-! ### Rescoring and idempotence (claim C3)

`score_signals` writes `score`, `score_breakdown` and `topics` back onto the
signal; every other field is untouched.  The projection lemmas below record
this, and `extractTopics_fields` records that topic extraction reads only the
five text fields. -/

theorem annotateSignal_name (ad : String → Option Int) (td : String)
    (l : List Signal) (s : Signal) : (annotateSignal ad td l s).name = s.name := rfl

theorem annotateSignal_topics (ad : String → Option Int) (td : String)
    (l : List Signal) (s : Signal) :
    (annotateSignal ad td l s).topics = some (extractTopics s) := rfl

theorem extractTopics_fields (s s' : Signal) (h1 : s.name = s'.name)
    (h2 : s.description = s'.description) (h3 : s.content = s'.content)
    (h4 : s.category = s'.category) (h5 : s.topics = s'.topics) :
    extractTopics s = extractTopics s' := by
  unfold extractTopics
  rw [h1, h2, h3, h4, h5]

/-- Counterexample to C3 as stated: re-scoring the output of `score_signals`
on the batch `[{name: "rpc"}]` changes the `topics` of the signal (and hence
its annotations are not reproduced).  The first run tags the signal
`infrastructure` (keyword "rpc") and writes that tag into its `topics` field;
on the second run `extract_topics` re-reads the concatenated text, which now
contains the word "infrastructure" — a keyword of the `depin` topic — so the
signal is re-tagged `["depin", "infrastructure"]`. -/
theorem c3_counterexample :
    scoreSignals (fun _ => none) "2025-01-01"
        (scoreSignals (fun _ => none) "2025-01-01" [{ name := some "rpc" }]) ≠
      scoreSignals (fun _ => none) "2025-01-01" [{ name := some "rpc" }] := by
  intro h
  have e0 : extractTopics ({ name := some "rpc" } : Signal) = ["infrastructure"] := by decide
  have e1 : scoreSignals (fun _ => none) "2025-01-01" [({ name := some "rpc" } : Signal)] =
      [annotateSignal (fun _ => none) "2025-01-01" [{ name := some "rpc" }]
        { name := some "rpc" }] := by
    simp [scoreSignals, sortBy, insSorted]
  rw [e1] at h
  have e2 : scoreSignals (fun _ => none) "2025-01-01"
      [annotateSignal (fun _ => none) "2025-01-01" [{ name := some "rpc" }]
        { name := some "rpc" }] =
      [annotateSignal (fun _ => none) "2025-01-01"
        [annotateSignal (fun _ => none) "2025-01-01" [{ name := some "rpc" }]
          { name := some "rpc" }]
        (annotateSignal (fun _ => none) "2025-01-01" [{ name := some "rpc" }]
          { name := some "rpc" })] := by
    simp [scoreSignals, sortBy, insSorted]
  rw [e2] at h
  simp only [List.cons.injEq, and_true] at h
  have h3 := congrArg Signal.topics h
  rw [annotateSignal_topics, annotateSignal_topics] at h3
  have h4 : extractTopics
      (annotateSignal (fun _ => none) "2025-01-01" [{ name := some "rpc" }]
        { name := some "rpc" }) =
      extractTopics ({ name := some "rpc", topics := some ["infrastructure"] } : Signal) := by
    apply extractTopics_fields
    · rfl
    · rfl
    · rfl
    · rfl
    · rw [annotateSignal_topics, e0]
  rw [h4, e0] at h3
  have h5 : extractTopics ({ name := some "rpc", topics := some ["infrastructure"] } : Signal) =
      ["depin", "infrastructure"] := by decide
  rw [h5] at h3
  simp at h3

/-! The amended idempotence statement: if topic re-extraction is stable on the
scored output (extracting topics from each annotated signal returns exactly
the topics it was assigned), the batch aggregates recomputed over the output
coincide with those of the input, and re-scoring reproduces the output
exactly.  The lemmas below transport each aggregate across the permutation
`output ~ map annotate input`. -/

theorem avgOf_perm {l l' : List Nat} (hp : l.Perm l') : avgOf l = avgOf l' := by
  unfold avgOf
  have hlen := hp.length_eq
  have hsum := hp.sum_eq
  by_cases hN : l = []
  · subst hN
    have : l' = [] := List.length_eq_zero.mp (by simpa using hlen.symm)
    simp [this]
  · have hN' : l' ≠ [] := by
      intro h0
      exact hN (by simp [h0] at hlen; exact hlen)
    rw [if_pos hN, if_pos hN', hsum, hlen]

theorem ratioAdj_congr {n : Nat} {c c' : List Nat} (h : avgOf c = avgOf c') :
    ratioAdj n c = ratioAdj n c' := by
  unfold ratioAdj
  rw [h]

theorem dateCount_congr (ad : String → Option Int) (td : String) {l₁ l₂ : List Signal}
    (hperm : l₂.Perm (l₁.map (annotateSignal ad td l₁))) (d : String) :
    dateCount td l₂ d = dateCount td l₁ d := by
  unfold dateCount
  rw [hperm.countP_eq, List.countP_map]
  exact List.countP_congr (fun s _ => Iff.rfl)

theorem sigDates_perm (ad : String → Option Int) (td : String) {l₁ l₂ : List Signal}
    (hperm : l₂.Perm (l₁.map (annotateSignal ad td l₁))) :
    (sigDates td l₂).Perm (sigDates td l₁) := by
  unfold sigDates
  apply List.Perm.dedup
  have h1 := hperm.map (dateOf td)
  rw [List.map_map] at h1
  have h2 : List.map (dateOf td ∘ annotateSignal ad td l₁) l₁ = List.map (dateOf td) l₁ :=
    List.map_congr_left (fun s _ => rfl)
  rw [h2] at h1
  exact h1

theorem tempAdj_congr (ad : String → Option Int) (td : String) {l₁ l₂ : List Signal}
    (hperm : l₂.Perm (l₁.map (annotateSignal ad td l₁))) :
    tempAdj td l₂ = tempAdj td l₁ := by
  have hdc : dateCount td l₂ = dateCount td l₁ := funext (dateCount_congr ad td hperm)
  have hsd := sigDates_perm ad td hperm
  unfold tempAdj
  rw [hdc]
  have hcond : (sigDates td l₂ ≠ [] ∧ td ≠ "") ↔ (sigDates td l₁ ≠ [] ∧ td ≠ "") := by
    constructor <;> (rintro ⟨h1, h2⟩; refine ⟨?_, h2⟩; intro h0)
    · rw [h0] at hsd; exact h1 (List.Perm.eq_nil hsd)
    · rw [h0] at hsd; exact h1 (List.Perm.eq_nil hsd.symm)
  rw [if_congr hcond (ratioAdj_congr (avgOf_perm (hsd.map _))) rfl]

theorem topicFilter_congr (ad : String → Option Int) (td : String) {l₁ : List Signal}
    (hext : ∀ s ∈ l₁, extractTopics (annotateSignal ad td l₁ s) = extractTopics s)
    (t : String) :
    (l₁.filter ((fun s => decide (t ∈ extractTopics s)) ∘ annotateSignal ad td l₁)) =
      l₁.filter (fun s => decide (t ∈ extractTopics s)) := by
  apply List.filter_congr
  intro s hs
  simp only [Function.comp_apply]
  rw [hext s hs]

theorem topicDateCount_congr (ad : String → Option Int) (td : String) {l₁ l₂ : List Signal}
    (hperm : l₂.Perm (l₁.map (annotateSignal ad td l₁)))
    (hext : ∀ s ∈ l₁, extractTopics (annotateSignal ad td l₁ s) = extractTopics s)
    (t d : String) :
    topicDateCount td l₂ t d = topicDateCount td l₁ t d := by
  unfold topicDateCount
  have h0 : (l₂.filter (fun s => decide (t ∈ extractTopics s))).Perm
      ((l₁.filter ((fun s => decide (t ∈ extractTopics s)) ∘ annotateSignal ad td l₁)).map
        (annotateSignal ad td l₁)) := by
    have h := hperm.filter (fun s => decide (t ∈ extractTopics s))
    rwa [List.filter_map] at h
  rw [h0.countP_eq, List.countP_map, topicFilter_congr ad td hext t]
  exact List.countP_congr (fun s _ => Iff.rfl)

theorem topicDates_perm (ad : String → Option Int) (td : String) {l₁ l₂ : List Signal}
    (hperm : l₂.Perm (l₁.map (annotateSignal ad td l₁)))
    (hext : ∀ s ∈ l₁, extractTopics (annotateSignal ad td l₁ s) = extractTopics s)
    (t : String) :
    (topicDates td l₂ t).Perm (topicDates td l₁ t) := by
  unfold topicDates
  apply List.Perm.dedup
  have h1 := (hperm.filter (fun s => decide (t ∈ extractTopics s))).map (dateOf td)
  rw [List.filter_map, List.map_map, topicFilter_congr ad td hext t] at h1
  have h2 : List.map (dateOf td ∘ annotateSignal ad td l₁)
      (l₁.filter (fun s => decide (t ∈ extractTopics s))) =
      List.map (dateOf td) (l₁.filter (fun s => decide (t ∈ extractTopics s))) :=
    List.map_congr_left (fun s _ => rfl)
  rw [h2] at h1
  exact h1

theorem topicStep_congr (ad : String → Option Int) (td : String) {l₁ l₂ : List Signal}
    (hperm : l₂.Perm (l₁.map (annotateSignal ad td l₁)))
    (hext : ∀ s ∈ l₁, extractTopics (annotateSignal ad td l₁ s) = extractTopics s)
    (best : ℚ) (t : String) :
    topicStep td l₂ best t = topicStep td l₁ best t := by
  have hc : topicDateCount td l₂ t = topicDateCount td l₁ t :=
    funext (topicDateCount_congr ad td hperm hext t)
  have hd := topicDates_perm ad td hperm hext t
  unfold topicStep
  rw [hc, avgOf_perm (hd.map _)]

theorem topicBoost_congr (ad : String → Option Int) (td : String) {l₁ l₂ : List Signal}
    (hperm : l₂.Perm (l₁.map (annotateSignal ad td l₁)))
    (hext : ∀ s ∈ l₁, extractTopics (annotateSignal ad td l₁ s) = extractTopics s)
    (topics : List String) :
    topicBoost td l₂ topics = topicBoost td l₁ topics := by
  unfold topicBoost
  have hstep : topicStep td l₂ = topicStep td l₁ :=
    funext fun b => funext fun t => topicStep_congr ad td hperm hext b t
  have hlen : l₂.length = l₁.length := by rw [hperm.length_eq, List.length_map]
  have hcond : (l₂ ≠ [] ∧ topics ≠ [] ∧ td ≠ "") ↔ (l₁ ≠ [] ∧ topics ≠ [] ∧ td ≠ "") := by
    constructor <;> (rintro ⟨h1, h2⟩; refine ⟨?_, h2⟩; intro h0)
    · rw [h0] at hlen; exact h1 (List.length_eq_zero.mp hlen)
    · rw [h0] at hlen; exact h1 (List.length_eq_zero.mp hlen.symm)
  rw [hstep, if_congr hcond rfl rfl]

theorem topicSrcCnt_congr (ad : String → Option Int) (td : String) {l₁ l₂ : List Signal}
    (hperm : l₂.Perm (l₁.map (annotateSignal ad td l₁)))
    (hext : ∀ s ∈ l₁, extractTopics (annotateSignal ad td l₁ s) = extractTopics s)
    (t : String) :
    topicSrcCnt l₂ t = topicSrcCnt l₁ t := by
  unfold topicSrcCnt
  have h1 := (hperm.filter (fun s => decide (t ∈ extractTopics s))).map sigSource
  rw [List.filter_map, List.map_map, topicFilter_congr ad td hext t] at h1
  have h2 : List.map (sigSource ∘ annotateSignal ad td l₁)
      (l₁.filter (fun s => decide (t ∈ extractTopics s))) =
      List.map sigSource (l₁.filter (fun s => decide (t ∈ extractTopics s))) :=
    List.map_congr_left (fun s _ => rfl)
  rw [h2] at h1
  exact h1.dedup.length_eq

theorem entitySrcCnt_congr (ad : String → Option Int) (td : String) {l₁ l₂ : List Signal}
    (hperm : l₂.Perm (l₁.map (annotateSignal ad td l₁))) (e : String) :
    entitySrcCnt l₂ e = entitySrcCnt l₁ e := by
  unfold entitySrcCnt
  have h1 := (hperm.filter (fun s => sigEntity s == e)).map sigSource
  rw [List.filter_map, List.map_map] at h1
  have hfe : (l₁.filter ((fun s => sigEntity s == e) ∘ annotateSignal ad td l₁)) =
      l₁.filter (fun s => sigEntity s == e) := List.filter_congr (fun s _ => rfl)
  rw [hfe] at h1
  have h2 : List.map (sigSource ∘ annotateSignal ad td l₁)
      (l₁.filter (fun s => sigEntity s == e)) =
      List.map sigSource (l₁.filter (fun s => sigEntity s == e)) :=
    List.map_congr_left (fun s _ => rfl)
  rw [h2] at h1
  exact h1.dedup.length_eq

theorem isCrossEntity_congr (ad : String → Option Int) (td : String) {l₁ l₂ : List Signal}
    (hperm : l₂.Perm (l₁.map (annotateSignal ad td l₁))) (e : String) :
    isCrossEntity l₂ e = isCrossEntity l₁ e := by
  unfold isCrossEntity
  rw [entitySrcCnt_congr ad td hperm e]

theorem bestDistinct_congr (ad : String → Option Int) (td : String) {l₁ l₂ : List Signal}
    (hperm : l₂.Perm (l₁.map (annotateSignal ad td l₁)))
    (hext : ∀ s ∈ l₁, extractTopics (annotateSignal ad td l₁ s) = extractTopics s)
    (topics : List String) :
    bestDistinct l₂ topics = bestDistinct l₁ topics := by
  unfold bestDistinct
  have h : (fun (b : Nat) t => max b (topicSrcCnt l₂ t)) =
      (fun (b : Nat) t => max b (topicSrcCnt l₁ t)) :=
    funext fun b => funext fun t => by rw [topicSrcCnt_congr ad td hperm hext t]
  rw [h]

theorem convergenceScore_congr (ad : String → Option Int) (td : String) {l₁ l₂ : List Signal}
    (hperm : l₂.Perm (l₁.map (annotateSignal ad td l₁)))
    (hext : ∀ s ∈ l₁, extractTopics (annotateSignal ad td l₁ s) = extractTopics s)
    (s : Signal) (topics : List String) :
    convergenceScore l₂ s topics = convergenceScore l₁ s topics := by
  unfold convergenceScore
  rw [isCrossEntity_congr ad td hperm, bestDistinct_congr ad td hperm hext]

theorem qualityScore_congr (ad : String → Option Int) (td : String) {l₁ l₂ : List Signal}
    (hperm : l₂.Perm (l₁.map (annotateSignal ad td l₁))) (s : Signal) :
    qualityScore l₂ s = qualityScore l₁ s := by
  unfold qualityScore qualityRaw
  rw [isCrossEntity_congr ad td hperm]

theorem velocityScore_congr (ad : String → Option Int) (td : String) {l₁ l₂ : List Signal}
    (hperm : l₂.Perm (l₁.map (annotateSignal ad td l₁)))
    (hext : ∀ s ∈ l₁, extractTopics (annotateSignal ad td l₁ s) = extractTopics s)
    (s : Signal) (topics : List String) :
    velocityScore td l₂ s topics = velocityScore td l₁ s topics := by
  unfold velocityScore
  rw [tempAdj_congr ad td hperm, topicBoost_congr ad td hperm hext]

theorem annotateSignal_congr (ad : String → Option Int) (td : String) {l₁ l₂ : List Signal}
    (hperm : l₂.Perm (l₁.map (annotateSignal ad td l₁)))
    (hext : ∀ s ∈ l₁, extractTopics (annotateSignal ad td l₁ s) = extractTopics s)
    (s : Signal) :
    annotateSignal ad td l₂ s = annotateSignal ad td l₁ s := by
  unfold annotateSignal
  simp only [velocityScore_congr ad td hperm hext, convergenceScore_congr ad td hperm hext,
    qualityScore_congr ad td hperm]

/-- The annotation of `score_signals` written out as one record update. -/
theorem annotateSignal_eq (ad : String → Option Int) (td : String) (l : List Signal)
    (s : Signal) :
    annotateSignal ad td l s = { s with
      score := some (round1 (compositeScore (velocityScore td l s (extractTopics s))
        (convergenceScore l s (extractTopics s)) (noveltyScore ad s) (authorityScore ad s)
        (qualityScore l s))),
      score_breakdown := some ⟨round1 (velocityScore td l s (extractTopics s)),
        round1 (convergenceScore l s (extractTopics s)), round1 (noveltyScore ad s),
        round1 (authorityScore ad s), round1 (qualityScore l s)⟩,
      topics := some (extractTopics s) } := rfl

/-- Every sub-score reads only fields that annotation leaves untouched. -/
theorem velocityScore_annotate (ad : String → Option Int) (td td' : String)
    (l l' : List Signal) (s : Signal) (T : List String) :
    velocityScore td' l' (annotateSignal ad td l s) T = velocityScore td' l' s T := rfl

theorem convergenceScore_annotate (ad : String → Option Int) (td : String)
    (l l' : List Signal) (s : Signal) (T : List String) :
    convergenceScore l' (annotateSignal ad td l s) T = convergenceScore l' s T := rfl

theorem noveltyScore_annotate (ad ad' : String → Option Int) (td : String)
    (l : List Signal) (s : Signal) :
    noveltyScore ad' (annotateSignal ad td l s) = noveltyScore ad' s := rfl

theorem authorityScore_annotate (ad ad' : String → Option Int) (td : String)
    (l : List Signal) (s : Signal) :
    authorityScore ad' (annotateSignal ad td l s) = authorityScore ad' s := rfl

theorem qualityScore_annotate (ad : String → Option Int) (td : String)
    (l l' : List Signal) (s : Signal) :
    qualityScore l' (annotateSignal ad td l s) = qualityScore l' s := rfl

/-- A record update that writes back a signal's own field values is the
identity. -/
theorem signal_update_eq (s' : Signal) {a : Option ℚ} {b : Option Breakdown}
    {c : Option (List String)} (h1 : s'.score = a) (h2 : s'.score_breakdown = b)
    (h3 : s'.topics = c) :
    ({ s' with score := a, score_breakdown := b, topics := c } : Signal) = s' := by
  cases s'
  simp_all

/-- With stable re-extraction, annotating an already-annotated signal is the
identity. -/
theorem annotateSignal_idem (ad : String → Option Int) (td : String) {sigs : List Signal}
    {s₀ : Signal}
    (hT : extractTopics (annotateSignal ad td sigs s₀) = extractTopics s₀) :
    annotateSignal ad td sigs (annotateSignal ad td sigs s₀) =
      annotateSignal ad td sigs s₀ := by
  rw [annotateSignal_eq ad td sigs (annotateSignal ad td sigs s₀)]
  rw [hT, velocityScore_annotate, convergenceScore_annotate, noveltyScore_annotate,
    authorityScore_annotate, qualityScore_annotate]
  exact signal_update_eq _ rfl rfl (by rw [annotateSignal_topics])

/-! Stable sort of an already-sorted list is the identity. -/

theorem mem_insSorted {le : α → α → Bool} {x a : α} {l : List α} :
    x ∈ insSorted le a l ↔ x = a ∨ x ∈ l := by
  rw [(insSorted_perm le a l).mem_iff, List.mem_cons]

theorem insSorted_pairwise {le : α → α → Bool}
    (total : ∀ a b, le a b = true ∨ le b a = true)
    (htrans : ∀ a b c, le a b = true → le b c = true → le a c = true)
    (a : α) {l : List α} (h : l.Pairwise (fun x y => le x y = true)) :
    (insSorted le a l).Pairwise (fun x y => le x y = true) := by
  induction l with
  | nil => simp [insSorted]
  | cons b bs ih =>
    rw [List.pairwise_cons] at h
    rw [insSorted]
    split
    · rename_i hab
      rw [List.pairwise_cons]
      refine ⟨?_, List.pairwise_cons.mpr h⟩
      intro x hx
      rcases List.mem_cons.mp hx with hxb | hxs
      · subst hxb; exact hab
      · exact htrans a b x hab (h.1 x hxs)
    · rename_i hab
      rw [List.pairwise_cons]
      refine ⟨?_, ih h.2⟩
      intro x hx
      rcases mem_insSorted.mp hx with hxa | hxs
      · subst hxa
        rcases total x b with h1 | h1
        · exact absurd h1 hab
        · exact h1
      · exact h.1 x hxs

theorem sortBy_pairwise {le : α → α → Bool}
    (total : ∀ a b, le a b = true ∨ le b a = true)
    (htrans : ∀ a b c, le a b = true → le b c = true → le a c = true)
    (l : List α) : (sortBy le l).Pairwise (fun x y => le x y = true) := by
  induction l with
  | nil => simp [sortBy]
  | cons a as ih => exact insSorted_pairwise total htrans a ih

theorem scoreGe_total (a b : Signal) : scoreGe a b = true ∨ scoreGe b a = true := by
  unfold scoreGe
  rcases le_total (b.score.getD 0) (a.score.getD 0) with h | h
  · left; exact decide_eq_true h
  · right; exact decide_eq_true h

theorem scoreGe_trans (a b c : Signal) (h1 : scoreGe a b = true) (h2 : scoreGe b c = true) :
    scoreGe a c = true := by
  unfold scoreGe at *
  exact decide_eq_true (le_trans (of_decide_eq_true h2) (of_decide_eq_true h1))

/-- C3 (amended): scoring is idempotent on every batch whose topic
re-extraction is stable — whenever extracting topics from each scored output
signal returns exactly the topics it was assigned, re-running `score_signals`
on the output (same date buckets, same clock) reproduces the output exactly,
hence identical `score`, `score_breakdown` and `topics` for every signal.
(The unamended claim fails because scoring writes `topics` back into the
signal text read by `extract_topics`; see the counterexample.) -/
theorem c3_scoring_idempotent_when_topics_stable (ad : String → Option Int) (td : String)
    (sigs : List Signal)
    (H : ∀ s ∈ scoreSignals ad td sigs, extractTopics s = s.topics.getD []) :
    scoreSignals ad td (scoreSignals ad td sigs) = scoreSignals ad td sigs := by
  have hperm : (scoreSignals ad td sigs).Perm (sigs.map (annotateSignal ad td sigs)) := by
    rw [scoreSignals]; exact sortBy_perm _ _
  have hext : ∀ s ∈ sigs, extractTopics (annotateSignal ad td sigs s) = extractTopics s := by
    intro s hs
    have hmem : annotateSignal ad td sigs s ∈ scoreSignals ad td sigs := by
      rw [scoreSignals, mem_sortBy]; exact List.mem_map_of_mem _ hs
    rw [H _ hmem, annotateSignal_topics]
    rfl
  conv_lhs => rw [scoreSignals]
  have h1 : (scoreSignals ad td sigs).map (annotateSignal ad td (scoreSignals ad td sigs)) =
      (scoreSignals ad td sigs).map (annotateSignal ad td sigs) :=
    List.map_congr_left (fun s _ => annotateSignal_congr ad td hperm hext s)
  rw [h1]
  have h2 : (scoreSignals ad td sigs).map (annotateSignal ad td sigs) =
      scoreSignals ad td sigs := by
    conv_rhs => rw [← List.map_id (scoreSignals ad td sigs)]
    apply List.map_congr_left
    intro x hx
    obtain ⟨s₀, hs₀, rfl⟩ := List.mem_map.mp (hperm.mem_iff.mp hx)
    exact annotateSignal_idem ad td (hext s₀ hs₀)
  rw [h2]
  exact sortBy_of_pairwise (sortBy_pairwise scoreGe_total scoreGe_trans _)

/-- Witness for the amended C3: the batch `[{name: "defi"}]`, whose extracted
topic `defi` re-extracts stably. -/
theorem c3_scoring_idempotent_witness :
    scoreSignals (fun _ => none) "2025-01-01"
        (scoreSignals (fun _ => none) "2025-01-01" [{ name := some "defi" }]) =
      scoreSignals (fun _ => none) "2025-01-01" [{ name := some "defi" }] := by
  apply c3_scoring_idempotent_when_topics_stable
  intro s hs
  rw [show scoreSignals (fun _ => none) "2025-01-01" [({ name := some "defi" } : Signal)] =
      [annotateSignal (fun _ => none) "2025-01-01" [{ name := some "defi" }]
        { name := some "defi" }] from by simp [scoreSignals, sortBy, insSorted]] at hs
  rw [List.mem_singleton] at hs
  subst hs
  rw [annotateSignal_topics]
  have h1 : extractTopics ({ name := some "defi" } : Signal) = ["defi"] := by decide
  have h2 : extractTopics
      (annotateSignal (fun _ => none) "2025-01-01" [{ name := some "defi" }]
        { name := some "defi" }) =
      extractTopics ({ name := some "defi", topics := some ["defi"] } : Signal) := by
    apply extractTopics_fields
    · rfl
    · rfl
    · rfl
    · rfl
    · rw [annotateSignal_topics, h1]
  rw [h2, h1]
  decide

/-! ### The pre-clusterer (`narrative_engine.py`)

`pre_cluster_signals` tokenizes each signal's searchable text, builds sparse
TF-IDF vectors, links pairs with cosine similarity ≥ threshold and groups the
connected components with union–find.  `math.log` is threaded as the
parameter `logq` (the only fact the development ever uses about it is that
`log(N/c) > 0` for `0 < c < N`).  The cosine threshold test is rendered
square-root-free: for vectors with non-negative square sums `sa`, `sb > 0`,
`dot/(√sa·√sb) ≥ θ` holds iff (`dot ≥ 0` and `dot² ≥ θ²·sa·sb`, for `θ > 0`),
iff `dot ≥ 0` (for `θ ≤ 0`, `dot ≥ 0`), iff `dot² ≤ θ²·sa·sb` (for `θ ≤ 0`,
`dot < 0`); the source only ever calls it with `θ = 0.25`. -/

/-- Is the character one of `[a-z0-9]` (a token character of `_tokenize`)? -/
def isLowAlnum (c : Char) : Bool :=
  ('a' ≤ c && c ≤ 'z') || ('0' ≤ c && c ≤ '9')

/-- Split a character list at separator characters.  `re.split` on a `+`-run
pattern merges separator runs into one split point; the extra empty tokens
produced here are discarded by the same `len > 2` filter that discards
Python's boundary empties. -/
def splitRun (p : Char → Bool) : List Char → List Char → List (List Char)
  | acc, [] => [acc.reverse]
  | acc, c :: cs => if p c then acc.reverse :: splitRun p [] cs else splitRun p (c :: acc) cs

/-- `_tokenize`: lowercase, split on non-alphanumeric runs, keep tokens of
length > 2. -/
def tokenize (text : String) : List String :=
  ((splitRun (fun c => !isLowAlnum c) [] (lowerStr text).data).map String.mk).filter
    (fun t => 2 < t.length)

/-- `_signal_text`: name, content, description and the topic tags, non-empty
parts joined by spaces. -/
def signalText (s : Signal) : String :=
  String.intercalate " "
    (([s.name.getD "", s.content.getD "", s.description.getD ""] ++ s.topics.getD []).filter
      (fun t => t ≠ ""))

/-- The crypto/solana stop-word list of `_compute_tfidf`. -/
def clusterStop : List String :=
  ["the", "and", "for", "with", "that", "this", "from", "are", "was", "has",
   "have", "been", "will", "not", "but", "they", "their", "its", "all", "can",
   "more", "other", "than", "into", "also", "some", "which", "about", "would",
   "there", "what", "when", "how", "each", "she", "her", "his", "him", "our",
   "solana", "sol", "protocol", "token", "https", "com", "www", "http"]

/-- `df[w]`: the number of documents containing `w` (documents contribute
their distinct non-stop words; membership in a list equals membership in its
set). -/
def dfCount (docs : List (List String)) (w : String) : Nat :=
  docs.countP (fun d => w ∈ d)

/-- The sparse TF-IDF vector of one document: for each distinct non-stop term
with `df < N` (i.e. each term with an IDF entry; a term of this document
always has `df ≥ 1`), `(count/total) · log(N/df)`. -/
def docVec (logq : ℚ → ℚ) (N : Nat) (docs : List (List String))
    (doc : List String) : List (String × ℚ) :=
  ((doc.filter (fun w => w ∉ clusterStop)).dedup.filter
      (fun w => dfCount docs w < N)).map
    (fun w =>
      (w, ((doc.filter (fun w' => w' ∉ clusterStop)).count w :
            ℚ) /
          (if (doc.filter (fun w' => w' ∉ clusterStop)).length = 0 then 1
           else ((doc.filter (fun w' => w' ∉ clusterStop)).length : ℚ)) *
          logq ((N : ℚ) / (dfCount docs w : ℚ))))

/-- `_compute_tfidf`: one sparse vector per document. -/
def tfidfVecs (logq : ℚ → ℚ) (docs : List (List String)) : List (List (String × ℚ)) :=
  if docs.length = 0 then [] else docs.map (docVec logq docs.length docs)

/-- The keys of `a` that are also keys of `b` (`set(a) & set(b)`; keys of a
vector are distinct by construction). -/
def commonKeys (a b : List (String × ℚ)) : List String :=
  (a.map Prod.fst).filter (fun w => w ∈ b.map Prod.fst)

/-- Sparse-vector lookup (0 outside the support). -/
def lookupQ (v : List (String × ℚ)) (w : String) : ℚ :=
  match v.find? (fun p => p.1 == w) with
  | some p => p.2
  | none => 0

/-- `sum(a[k]·b[k] for k in common)`. -/
def dotCommon (a b : List (String × ℚ)) : ℚ :=
  ((commonKeys a b).map (fun w => lookupQ a w * lookupQ b w)).sum

/-- `sum(v·v for v in a.values())` (the square of the vector's magnitude). -/
def sqSum (v : List (String × ℚ)) : ℚ := (v.map (fun p => p.2 * p.2)).sum

/-- Exact square-root-free Boolean rendering of `_cosine_sim(a, b) >= θ`
(see the section comment). -/
def cosGe (a b : List (String × ℚ)) (θ : ℚ) : Bool :=
  if a = [] ∨ b = [] then decide ((0 : ℚ) ≥ θ)
  else if commonKeys a b = [] then decide ((0 : ℚ) ≥ θ)
  else if sqSum a = 0 ∨ sqSum b = 0 then decide ((0 : ℚ) ≥ θ)
  else if 0 ≤ dotCommon a b then
    (if 0 < θ then decide (θ ^ 2 * (sqSum a * sqSum b) ≤ dotCommon a b ^ 2) else true)
  else (if θ ≤ 0 then decide (dotCommon a b ^ 2 ≤ θ ^ 2 * (sqSum a * sqSum b)) else false)

/-- Union–find, embedded by its extensional content: the state is the
fully-resolved representative map (kept idempotent by construction), so
`find(x)` is application and `union` relabels one class.  The source's
path-halved forest computes the same partition. -/
def ufUnion (r : Nat → Nat) (i j : Nat) : Nat → Nat :=
  fun x => if r x = r i then r j else r x

/-- The ordered pair list of the double loop
`for i in range(n): for j in range(i+1, n)`. -/
def pairList (n : Nat) : List (Nat × Nat) :=
  (List.range n).flatMap (fun i => ((List.range n).drop (i + 1)).map (fun j => (i, j)))

/-- Run all `union` calls of the pairwise-similarity loop. -/
def linkFold (link : Nat → Nat → Bool) (n : Nat) : Nat → Nat :=
  (pairList n).foldl (fun r p => if link p.1 p.2 then ufUnion r p.1 p.2 else r) id

/-- Append a signal to the bucket keyed by its component root
(`clusters[find(i)].append(s)`); a fresh root opens a new bucket at the end,
as dict insertion order does. -/
def addBucket : List (Nat × List Signal) → Nat → Signal → List (Nat × List Signal)
  | [], k, s => [(k, [s])]
  | (k', l) :: rest, k, s =>
    if k' = k then (k', l ++ [s]) :: rest else (k', l) :: addBucket rest k s

/-- `max(s.get("score", 0) for s in c)` over a non-empty cluster (0 for the
unreachable empty case). -/
def maxScoreOf (c : List Signal) : ℚ :=
  match c.map (fun s => s.score.getD 0) with
  | [] => 0
  | q :: qs => qs.foldl max q

/-- Descending-by-best-score order of the final cluster sort. -/
def clusterGe (c d : List Signal) : Bool := maxScoreOf d ≤ maxScoreOf c

/-- `pre_cluster_signals`: batches of ≤ 3 signals pass through as a single
cluster (empty input gives no cluster); otherwise TF-IDF vectors, pairwise
cosine linking at `threshold`, union–find components, grouped in
first-occurrence order and stably sorted by best member score. -/
def preClusterSignals (logq : ℚ → ℚ) (signals : List Signal) (threshold : ℚ) :
    List (List Signal) :=
  if signals.length ≤ 3 then (if signals = [] then [] else [signals])
  else
    let docs := signals.map (fun s => tokenize (signalText s))
    let vecs := tfidfVecs logq docs
    let r := linkFold (fun i j => cosGe (vecs.getD i []) (vecs.getD j []) threshold)
      signals.length
    let buckets := signals.enum.foldl (fun acc p => addBucket acc (r p.1) p.2) []
    sortBy clusterGe (buckets.map Prod.snd)

/-! ### The clusters partition the input (claim C8) -/

theorem addBucket_flatten_perm (acc : List (Nat × List Signal)) (k : Nat) (s : Signal) :
    ((addBucket acc k s).map Prod.snd).flatten.Perm
      ((acc.map Prod.snd).flatten ++ [s]) := by
  induction acc with
  | nil => simp [addBucket]
  | cons p rest ih =>
    obtain ⟨k', l⟩ := p
    rw [addBucket]
    split
    · simp only [List.map_cons, List.flatten_cons, List.append_assoc]
      exact List.Perm.append_left l (List.perm_append_comm)
    · simp only [List.map_cons, List.flatten_cons]
      rw [List.append_assoc]
      exact List.Perm.append_left l ih

theorem bucketFold_flatten_perm (r : Nat → Nat) (l : List (Nat × Signal)) :
    ∀ acc : List (Nat × List Signal),
      ((l.foldl (fun acc p => addBucket acc (r p.1) p.2) acc).map Prod.snd).flatten.Perm
        ((acc.map Prod.snd).flatten ++ l.map Prod.snd) := by
  induction l with
  | nil => intro acc; simp
  | cons p ps ih =>
    intro acc
    rw [List.foldl_cons]
    refine (ih _).trans ?_
    have h1 := (addBucket_flatten_perm acc (r p.1) p.2).append_right (ps.map Prod.snd)
    refine h1.trans ?_
    rw [List.append_assoc]
    exact List.Perm.refl _

theorem addBucket_ne_nil {acc : List (Nat × List Signal)} (k : Nat) (s : Signal)
    (h : ∀ p ∈ acc, p.2 ≠ []) : ∀ p ∈ addBucket acc k s, p.2 ≠ [] := by
  induction acc with
  | nil =>
    intro p hp
    rw [addBucket] at hp
    rcases List.mem_singleton.mp hp with rfl
    simp
  | cons q rest ih =>
    obtain ⟨k', l⟩ := q
    intro p hp
    rw [addBucket] at hp
    split at hp
    · rcases List.mem_cons.mp hp with rfl | hrest
      · simp
      · exact h _ (List.mem_cons_of_mem _ hrest)
    · rcases List.mem_cons.mp hp with rfl | hrest
      · exact h (k', l) (by simp)
      · exact ih (fun q hq => h q (List.mem_cons_of_mem _ hq)) _ hrest

theorem bucketFold_ne_nil (r : Nat → Nat) (l : List (Nat × Signal)) :
    ∀ acc : List (Nat × List Signal), (∀ p ∈ acc, p.2 ≠ []) →
      ∀ p ∈ l.foldl (fun acc p => addBucket acc (r p.1) p.2) acc, p.2 ≠ [] := by
  induction l with
  | nil => intro acc h; exact h
  | cons q qs ih =>
    intro acc h
    rw [List.foldl_cons]
    exact ih _ (addBucket_ne_nil _ _ h)

/-- C8: for every non-empty batch, the clusters returned by
`pre_cluster_signals` form a partition of the input — their concatenation is
a permutation of the input batch (so every signal appears in exactly one
cluster, counting multiplicity, and the sizes sum to the input length) and no
cluster is empty. -/
theorem c8_clusters_partition (logq : ℚ → ℚ) (signals : List Signal) (threshold : ℚ)
    (h : signals ≠ []) :
    (preClusterSignals logq signals threshold).flatten.Perm signals ∧
    ∀ c ∈ preClusterSignals logq signals threshold, c ≠ [] := by
  by_cases h3 : signals.length ≤ 3
  · rw [preClusterSignals, if_pos h3, if_neg h]
    constructor
    · simp
    · intro c hc
      rcases List.mem_singleton.mp hc with rfl
      exact h
  · rw [preClusterSignals, if_neg h3]
    constructor
    · refine ((sortBy_perm _ _).flatten).trans ?_
      refine (bucketFold_flatten_perm _ signals.enum []).trans ?_
      simp [List.enum_map_snd]
    · intro c hc
      rw [mem_sortBy] at hc
      obtain ⟨p, hp, rfl⟩ := List.mem_map.mp hc
      exact bucketFold_ne_nil _ signals.enum [] (by simp) p hp

/-! ### Union–find connectivity and bucket membership (claim C6) -/

theorem ufUnion_pres {r : Nat → Nat} {x y : Nat} (i j : Nat) (h : r x = r y) :
    ufUnion r i j x = ufUnion r i j y := by
  unfold ufUnion
  rw [h]

theorem linkStep_pres (link : Nat → Nat → Bool) {r : Nat → Nat} {x y : Nat}
    (p : Nat × Nat) (h : r x = r y) :
    (if link p.1 p.2 then ufUnion r p.1 p.2 else r) x =
      (if link p.1 p.2 then ufUnion r p.1 p.2 else r) y := by
  split
  · exact ufUnion_pres _ _ h
  · exact h

theorem linkFoldAux_pres (link : Nat → Nat → Bool) (l : List (Nat × Nat)) :
    ∀ (r : Nat → Nat) (x y : Nat), r x = r y →
      (l.foldl (fun r p => if link p.1 p.2 then ufUnion r p.1 p.2 else r) r) x =
        (l.foldl (fun r p => if link p.1 p.2 then ufUnion r p.1 p.2 else r) r) y := by
  induction l with
  | nil => intro r x y h; exact h
  | cons p ps ih =>
    intro r x y h
    rw [List.foldl_cons]
    exact ih _ x y (linkStep_pres link p h)

theorem ufUnion_connects (r : Nat → Nat) (i j : Nat) : ufUnion r i j i = ufUnion r i j j := by
  unfold ufUnion
  rw [if_pos rfl]
  split <;> rfl

theorem linkFoldAux_connect (link : Nat → Nat → Bool) {i j : Nat} (l : List (Nat × Nat)) :
    ∀ r : Nat → Nat, (i, j) ∈ l → link i j = true →
      (l.foldl (fun r p => if link p.1 p.2 then ufUnion r p.1 p.2 else r) r) i =
        (l.foldl (fun r p => if link p.1 p.2 then ufUnion r p.1 p.2 else r) r) j := by
  induction l with
  | nil => intro r h; exact absurd h (List.not_mem_nil _)
  | cons p ps ih =>
    intro r hmem hlink
    rw [List.foldl_cons]
    rcases List.mem_cons.mp hmem with rfl | hps
    · apply linkFoldAux_pres
      simp only [hlink, if_pos]
      exact ufUnion_connects r i j
    · exact ih _ hps hlink

theorem mem_pairList {n i j : Nat} (h1 : i < j) (h2 : j < n) : (i, j) ∈ pairList n := by
  unfold pairList
  rw [List.mem_flatMap]
  refine ⟨i, List.mem_range.mpr (lt_trans h1 h2), ?_⟩
  rw [List.mem_map]
  refine ⟨j, ?_, rfl⟩
  rw [List.mem_drop_iff_getElem]
  refine ⟨j - (i + 1), ?_, ?_⟩
  · simp only [List.length_range]
    omega
  · rw [List.getElem_range]
    omega

theorem linkFold_connect (link : Nat → Nat → Bool) {n i j : Nat} (h1 : i < j) (h2 : j < n)
    (hlink : link i j = true) : linkFold link n i = linkFold link n j :=
  linkFoldAux_connect link (pairList n) id (mem_pairList h1 h2) hlink

/-- The bucket currently keyed by root `k` (empty if none yet). -/
def bucketOf (acc : List (Nat × List Signal)) (k : Nat) : List Signal :=
  match acc.find? (fun p => p.1 == k) with
  | some p => p.2
  | none => []

theorem bucketOf_addBucket_same (acc : List (Nat × List Signal)) (k : Nat) (s : Signal) :
    bucketOf (addBucket acc k s) k = bucketOf acc k ++ [s] := by
  induction acc with
  | nil => simp [addBucket, bucketOf, List.find?]
  | cons p rest ih =>
    obtain ⟨k', l⟩ := p
    rw [addBucket]
    split
    · rename_i hk
      subst hk
      simp [bucketOf, List.find?]
    · rename_i hk
      unfold bucketOf
      rw [List.find?_cons, List.find?_cons]
      have hne : ((k', l).1 == k) = false := by simp [hk]
      rw [hne]
      exact ih

theorem bucketOf_addBucket_other (acc : List (Nat × List Signal)) {k k₂ : Nat} (s : Signal)
    (h : k ≠ k₂) : bucketOf (addBucket acc k₂ s) k = bucketOf acc k := by
  induction acc with
  | nil =>
    have hb : (k₂ == k) = false := by simp [Ne.symm h]
    simp [addBucket, bucketOf, List.find?, hb]
  | cons p rest ih =>
    obtain ⟨k', l⟩ := p
    rw [addBucket]
    split
    · rename_i hk
      subst hk
      have hb : (k' == k) = false := by simp [Ne.symm h]
      simp [bucketOf, List.find?_cons, hb]
    · unfold bucketOf
      rw [List.find?_cons, List.find?_cons]
      rcases hbeq : ((k', l).1 == k) with _ | _
      · simp only [hbeq]
        exact ih
      · simp only [hbeq]

theorem bucketOf_addBucket_mono (acc : List (Nat × List Signal)) (k₂ : Nat) (s : Signal)
    {x : Signal} {k : Nat} (h : x ∈ bucketOf acc k) :
    x ∈ bucketOf (addBucket acc k₂ s) k := by
  by_cases hk : k = k₂
  · subst hk
    rw [bucketOf_addBucket_same]
    exact List.mem_append_left _ h
  · rw [bucketOf_addBucket_other acc s hk]
    exact h

theorem bucketOf_fold_mono (r : Nat → Nat) (l : List (Nat × Signal)) :
    ∀ (acc : List (Nat × List Signal)) {x : Signal} {k : Nat}, x ∈ bucketOf acc k →
      x ∈ bucketOf (l.foldl (fun acc p => addBucket acc (r p.1) p.2) acc) k := by
  induction l with
  | nil => intro acc x k h; exact h
  | cons p ps ih =>
    intro acc x k h
    rw [List.foldl_cons]
    exact ih _ (bucketOf_addBucket_mono acc _ _ h)

theorem mem_bucketOf_fold (r : Nat → Nat) (l : List (Nat × Signal)) :
    ∀ (acc : List (Nat × List Signal)) (i : Nat) (s : Signal), (i, s) ∈ l →
      s ∈ bucketOf (l.foldl (fun acc p => addBucket acc (r p.1) p.2) acc) (r i) := by
  induction l with
  | nil => intro acc i s h; exact absurd h (List.not_mem_nil _)
  | cons p ps ih =>
    intro acc i s hmem
    rw [List.foldl_cons]
    rcases List.mem_cons.mp hmem with rfl | hps
    · apply bucketOf_fold_mono
      rw [bucketOf_addBucket_same]
      exact List.mem_append_right _ (List.mem_singleton.mpr rfl)
    · exact ih _ i s hps

theorem bucketOf_mem_map_snd (acc : List (Nat × List Signal)) (k : Nat)
    (h : bucketOf acc k ≠ []) : bucketOf acc k ∈ acc.map Prod.snd := by
  unfold bucketOf at *
  rcases hfind : acc.find? (fun p => p.1 == k) with _ | p
  · rw [hfind] at h
    exact absurd rfl h
  · rw [hfind]
    exact List.mem_map_of_mem _ (List.mem_of_find?_eq_some hfind)

/-! ### Cosine similarity of a vector with itself (claim C6) -/

theorem commonKeys_self (v : List (String × ℚ)) : commonKeys v v = v.map Prod.fst :=
  List.filter_eq_self.mpr (fun _ hw => decide_eq_true hw)

theorem lookupQ_cons_self (w : String) (q : ℚ) (rest : List (String × ℚ)) :
    lookupQ ((w, q) :: rest) w = q := by
  unfold lookupQ
  rw [List.find?_cons]
  simp

theorem lookupQ_cons_ne (w : String) (q : ℚ) (rest : List (String × ℚ)) {w₂ : String}
    (h : w₂ ≠ w) : lookupQ ((w, q) :: rest) w₂ = lookupQ rest w₂ := by
  unfold lookupQ
  rw [List.find?_cons]
  have hne : ((w, q).1 == w₂) = false := by simp [Ne.symm h]
  rw [hne]

theorem dotCommon_self {v : List (String × ℚ)} (hnd : (v.map Prod.fst).Nodup) :
    dotCommon v v = sqSum v := by
  unfold dotCommon sqSum
  rw [commonKeys_self]
  induction v with
  | nil => simp
  | cons p rest ih =>
    obtain ⟨w, q⟩ := p
    rw [List.map_cons, List.map_cons, List.map_cons, List.sum_cons, List.sum_cons]
    rw [List.map_cons] at hnd
    rw [List.nodup_cons] at hnd
    have hhead : lookupQ ((w, q) :: rest) w * lookupQ ((w, q) :: rest) w = q * q := by
      rw [lookupQ_cons_self]
    have htail : (rest.map Prod.fst).map
        (fun w' => lookupQ ((w, q) :: rest) w' * lookupQ ((w, q) :: rest) w') =
        (rest.map Prod.fst).map (fun w' => lookupQ rest w' * lookupQ rest w') := by
      apply List.map_congr_left
      intro w' hw'
      have hne : w' ≠ w := fun he => hnd.1 (he ▸ hw')
      rw [lookupQ_cons_ne w q rest hne]
    rw [hhead, htail, ih hnd.2]

theorem docVec_keys (logq : ℚ → ℚ) (N : Nat) (docs : List (List String))
    (doc : List String) :
    (docVec logq N docs doc).map Prod.fst =
      (doc.filter (fun w => w ∉ clusterStop)).dedup.filter (fun w => dfCount docs w < N) := by
  unfold docVec
  rw [List.map_map]
  exact List.map_congr_left (fun _ _ => rfl) |>.trans (List.map_id _)

theorem docVec_keys_nodup (logq : ℚ → ℚ) (N : Nat) (docs : List (List String))
    (doc : List String) : ((docVec logq N docs doc).map Prod.fst).Nodup := by
  rw [docVec_keys]
  exact (doc.filter (fun w => w ∉ clusterStop)).nodup_dedup.filter _

theorem docVec_entry_pos (logq : ℚ → ℚ) (N : Nat) (docs : List (List String))
    (doc : List String)
    (hlog : ∀ a b : Nat, 0 < b → b < a → 0 < logq ((a : ℚ) / (b : ℚ)))
    (hdoc : doc ∈ docs) : ∀ p ∈ docVec logq N docs doc, 0 < p.2 := by
  intro p hp
  unfold docVec at hp
  obtain ⟨w, hw, rfl⟩ := List.mem_map.mp hp
  rw [List.mem_filter] at hw
  have hwns : w ∈ doc.filter (fun w' => w' ∉ clusterStop) := List.mem_dedup.mp hw.1
  have hcount : 0 < (doc.filter (fun w' => w' ∉ clusterStop)).count w :=
    List.count_pos_iff.mpr hwns
  have hlen : (doc.filter (fun w' => w' ∉ clusterStop)).length ≠ 0 :=
    Nat.pos_iff_ne_zero.mp (List.length_pos.mpr (List.ne_nil_of_mem hwns))
  have hdf : 0 < dfCount docs w := by
    unfold dfCount
    rw [List.countP_pos_iff]
    exact ⟨doc, hdoc, decide_eq_true (List.mem_of_mem_filter hwns)⟩
  have hN : dfCount docs w < N := of_decide_eq_true hw.2
  dsimp only
  rw [if_neg hlen]
  apply mul_pos
  · apply div_pos
    · exact_mod_cast hcount
    · exact_mod_cast Nat.pos_of_ne_zero hlen
  · exact hlog N (dfCount docs w) hdf hN

theorem sqSum_pos {v : List (String × ℚ)} (hne : v ≠ []) (hpos : ∀ p ∈ v, 0 < p.2) :
    0 < sqSum v := by
  unfold sqSum
  apply List.sum_pos
  · intro x hx
    obtain ⟨p, hp, rfl⟩ := List.mem_map.mp hx
    exact mul_pos (hpos p hp) (hpos p hp)
  · simp [hne]

theorem cosGe_self {v : List (String × ℚ)} (hne : v ≠ [])
    (hnd : (v.map Prod.fst).Nodup) (hS : 0 < sqSum v) : cosGe v v (1/4) = true := by
  unfold cosGe
  rw [if_neg (by simp [hne]), if_neg (by rw [commonKeys_self]; simp [hne]),
    if_neg (by simp [ne_of_gt hS]), if_pos (by rw [dotCommon_self hnd]; exact hS.le),
    if_pos (by norm_num : (0:ℚ) < 1/4)]
  apply decide_eq_true
  rw [dotCommon_self hnd]
  nlinarith [hS]

/-- C6 (amended): in a batch of more than 3 signals, with the default
threshold 0.25, two signals with identical searchable text are placed in the
same cluster by `pre_cluster_signals` **provided their (shared) TF-IDF vector
is non-empty** — i.e. the text contains at least one token of length > 2 that
is neither a stop word nor present in every document.  (`logq` embeds
`math.log`; the only property used is `log(N/df) > 0` for `0 < df < N`.  The
unamended claim fails for signals whose searchable text carries no
informative token: their vectors are empty, cosine similarity to everything —
themselves included — is 0, and they land in singleton clusters; see the
counterexample.) -/
theorem c6_identical_text_same_cluster (logq : ℚ → ℚ) (signals : List Signal) (i j : Nat)
    (hlog : ∀ a b : Nat, 0 < b → b < a → 0 < logq ((a : ℚ) / (b : ℚ)))
    (h3 : 3 < signals.length) (hij : i < j) (hj : j < signals.length)
    (htext : signalText (signals.getD i {}) = signalText (signals.getD j {}))
    (hvec : (tfidfVecs logq (signals.map (fun s => tokenize (signalText s)))).getD i [] ≠ []) :
    ∃ c ∈ preClusterSignals logq signals (1/4),
      signals.getD i {} ∈ c ∧ signals.getD j {} ∈ c := by
  have hi : i < signals.length := lt_trans hij hj
  have hdlen : (signals.map (fun s => tokenize (signalText s))).length = signals.length :=
    List.length_map _ _
  have hN0 : ¬ (signals.map (fun s => tokenize (signalText s))).length = 0 := by
    rw [hdlen]; omega
  have hget : ∀ (k : Nat), k < signals.length →
      (tfidfVecs logq (signals.map (fun s => tokenize (signalText s)))).getD k [] =
        docVec logq (signals.map (fun s => tokenize (signalText s))).length
          (signals.map (fun s => tokenize (signalText s)))
          (tokenize (signalText (signals.getD k {}))) := by
    intro k hk
    rw [tfidfVecs, if_neg hN0,
      List.getD_eq_getElem _ _ (by rw [List.length_map, hdlen]; exact hk),
      List.getElem_map, List.getElem_map, List.getD_eq_getElem _ _ hk]
  have hvi := hget i hi
  have hvj := hget j hj
  have hvij : (tfidfVecs logq (signals.map (fun s => tokenize (signalText s)))).getD i [] =
      (tfidfVecs logq (signals.map (fun s => tokenize (signalText s)))).getD j [] := by
    rw [hvi, hvj, htext]
  have hdoc_mem : tokenize (signalText (signals.getD i {})) ∈
      signals.map (fun s => tokenize (signalText s)) := by
    rw [List.getD_eq_getElem _ _ hi]
    exact List.mem_map_of_mem _ (List.getElem_mem hi)
  have hpos : ∀ p ∈ (tfidfVecs logq (signals.map (fun s => tokenize (signalText s)))).getD i [],
      0 < p.2 := by
    rw [hvi]
    exact docVec_entry_pos _ _ _ _ hlog hdoc_mem
  have hnd : (((tfidfVecs logq (signals.map (fun s => tokenize (signalText s)))).getD i
      []).map Prod.fst).Nodup := by
    rw [hvi]
    exact docVec_keys_nodup _ _ _ _
  have hS := sqSum_pos hvec hpos
  have hcos : cosGe ((tfidfVecs logq (signals.map (fun s => tokenize (signalText s)))).getD i [])
      ((tfidfVecs logq (signals.map (fun s => tokenize (signalText s)))).getD j [])
      (1/4) = true := by
    rw [← hvij]
    exact cosGe_self hvec hnd hS
  have hroot := linkFold_connect
    (fun a b => cosGe ((tfidfVecs logq (signals.map (fun s => tokenize (signalText s)))).getD a [])
      ((tfidfVecs logq (signals.map (fun s => tokenize (signalText s)))).getD b []) (1/4))
    hij hj hcos
  have hmemi : (i, signals.getD i {}) ∈ signals.enum := by
    rw [List.getD_eq_getElem _ _ hi]
    have := List.getElem_enum signals i (by simpa using hi)
    exact this ▸ List.getElem_mem _
  have hmemj : (j, signals.getD j {}) ∈ signals.enum := by
    rw [List.getD_eq_getElem _ _ hj]
    have := List.getElem_enum signals j (by simpa using hj)
    exact this ▸ List.getElem_mem _
  have hsi := mem_bucketOf_fold
    (linkFold (fun a b =>
      cosGe ((tfidfVecs logq (signals.map (fun s => tokenize (signalText s)))).getD a [])
        ((tfidfVecs logq (signals.map (fun s => tokenize (signalText s)))).getD b []) (1/4))
      signals.length)
    signals.enum [] i _ hmemi
  have hsj := mem_bucketOf_fold
    (linkFold (fun a b =>
      cosGe ((tfidfVecs logq (signals.map (fun s => tokenize (signalText s)))).getD a [])
        ((tfidfVecs logq (signals.map (fun s => tokenize (signalText s)))).getD b []) (1/4))
      signals.length)
    signals.enum [] j _ hmemj
  rw [← hroot] at hsj
  rw [preClusterSignals, if_neg (by omega : ¬ signals.length ≤ 3)]
  exact ⟨_, mem_sortBy.mpr (bucketOf_mem_map_snd _ _ (List.ne_nil_of_mem hsi)), hsi, hsj⟩

/-- Witness for the amended C6: two "jupiter" signals (distinct URLs, same
searchable text) in a batch of four. -/
theorem c6_identical_text_same_cluster_witness :
    ∃ c ∈ preClusterSignals (fun _ => 1)
        [{ name := some "jupiter", url := some "x" },
         { name := some "jupiter", url := some "y" },
         { name := some "kamino" }, { name := some "marinade" }] (1/4),
      ([{ name := some "jupiter", url := some "x" },
        { name := some "jupiter", url := some "y" },
        { name := some "kamino" }, { name := some "marinade" }] : List Signal).getD 0 {} ∈ c ∧
      ([{ name := some "jupiter", url := some "x" },
        { name := some "jupiter", url := some "y" },
        { name := some "kamino" }, { name := some "marinade" }] : List Signal).getD 1 {} ∈ c := by
  apply c6_identical_text_same_cluster (fun _ => 1) _ 0 1
  · intro a b h1 h2
    norm_num
  · decide
  · decide
  · decide
  · decide
  · have hdocs : List.map (fun s => tokenize (signalText s))
        ([{ name := some "jupiter", url := some "x" },
          { name := some "jupiter", url := some "y" },
          { name := some "kamino" }, { name := some "marinade" }] : List Signal) =
        [["jupiter"], ["jupiter"], ["kamino"], ["marinade"]] := by decide
    rw [hdocs, tfidfVecs, if_neg (by decide)]
    simp only [List.map_cons, List.getD_cons_zero]
    unfold docVec
    rw [show ((["jupiter"].filter (fun w => w ∉ clusterStop)).dedup.filter
        (fun w => dfCount [["jupiter"], ["jupiter"], ["kamino"], ["marinade"]] w <
          [["jupiter"], ["jupiter"], ["kamino"], ["marinade"]].length)) = ["jupiter"]
      from by decide]
    simp

/-- Witness for C8: a singleton batch. -/
theorem c8_clusters_partition_witness :
    (preClusterSignals (fun _ => 1) [{ name := some "jupiter" }] (1/4)).flatten.Perm
        [{ name := some "jupiter" }] ∧
    ∀ c ∈ preClusterSignals (fun _ => 1) [({ name := some "jupiter" } : Signal)] (1/4),
      c ≠ [] :=
  c8_clusters_partition (fun _ => 1) [{ name := some "jupiter" }] (1/4) (by simp)

theorem cosGe_nil_left (b : List (String × ℚ)) : cosGe [] b (1/4) = false := by
  unfold cosGe
  rw [if_pos (Or.inl rfl)]
  exact decide_eq_false (by norm_num)

theorem cosGe_no_common {a b : List (String × ℚ)} (ha : a ≠ []) (hb : b ≠ [])
    (hc : commonKeys a b = []) : cosGe a b (1/4) = false := by
  unfold cosGe
  rw [if_neg (by simp [ha, hb]), if_pos hc]
  exact decide_eq_false (by norm_num)

/-- Counterexample to C6 as stated: in the batch below — more than 3 signals,
default threshold 0.25, an IDF weight function that is positive wherever the
claim could use it — the first two signals have identical searchable text
("ab", whose only token has length ≤ 2 and is dropped), yet no returned
cluster contains both: their TF-IDF vectors are empty, their cosine
similarity to everything (including each other) is 0 < 0.25, and each ends up
in its own singleton cluster. -/
theorem c6_counterexample :
    signalText ({ name := some "ab", url := some "x" } : Signal) =
      signalText ({ name := some "ab", url := some "y" } : Signal) ∧
    3 < ([{ name := some "ab", url := some "x" }, { name := some "ab", url := some "y" },
          { name := some "jupiter" }, { name := some "kamino" }] : List Signal).length ∧
    (∀ a b : Nat, 0 < b → b < a → 0 < (fun _ : ℚ => (1 : ℚ)) ((a : ℚ) / (b : ℚ))) ∧
    ¬ ∃ c ∈ preClusterSignals (fun _ : ℚ => (1 : ℚ))
        [{ name := some "ab", url := some "x" }, { name := some "ab", url := some "y" },
         { name := some "jupiter" }, { name := some "kamino" }] (1/4),
      ({ name := some "ab", url := some "x" } : Signal) ∈ c ∧
      ({ name := some "ab", url := some "y" } : Signal) ∈ c := by
  refine ⟨by decide, by decide, fun a b h1 h2 => by norm_num, ?_⟩
  have hdocs : List.map (fun s => tokenize (signalText s))
      ([{ name := some "ab", url := some "x" }, { name := some "ab", url := some "y" },
        { name := some "jupiter" }, { name := some "kamino" }] : List Signal) =
      [[], [], ["jupiter"], ["kamino"]] := by decide
  have hN : ¬ ([[], [], ["jupiter"], ["kamino"]] : List (List String)).length = 0 := by decide
  have hg0 : (tfidfVecs (fun _ : ℚ => (1 : ℚ)) [[], [], ["jupiter"], ["kamino"]]).getD 0 [] =
      [] := by
    rw [tfidfVecs, if_neg hN]
    simp only [List.map_cons, List.getD_cons_zero]
    simp [docVec]
  have hg1 : (tfidfVecs (fun _ : ℚ => (1 : ℚ)) [[], [], ["jupiter"], ["kamino"]]).getD 1 [] =
      [] := by
    rw [tfidfVecs, if_neg hN]
    simp only [List.map_cons, List.getD_cons_succ, List.getD_cons_zero]
    simp [docVec]
  have hg2 : (tfidfVecs (fun _ : ℚ => (1 : ℚ)) [[], [], ["jupiter"], ["kamino"]]).getD 2 [] =
      docVec (fun _ : ℚ => (1 : ℚ)) ([[], [], ["jupiter"], ["kamino"]] : List (List String)).length
        [[], [], ["jupiter"], ["kamino"]] ["jupiter"] := by
    rw [tfidfVecs, if_neg hN]
    simp only [List.map_cons, List.getD_cons_succ, List.getD_cons_zero]
  have hg3 : (tfidfVecs (fun _ : ℚ => (1 : ℚ)) [[], [], ["jupiter"], ["kamino"]]).getD 3 [] =
      docVec (fun _ : ℚ => (1 : ℚ)) ([[], [], ["jupiter"], ["kamino"]] : List (List String)).length
        [[], [], ["jupiter"], ["kamino"]] ["kamino"] := by
    rw [tfidfVecs, if_neg hN]
    simp only [List.map_cons, List.getD_cons_succ, List.getD_cons_zero]
  have hk2 : (docVec (fun _ : ℚ => (1 : ℚ))
      ([[], [], ["jupiter"], ["kamino"]] : List (List String)).length
      [[], [], ["jupiter"], ["kamino"]] ["jupiter"]).map Prod.fst = ["jupiter"] := by
    rw [docVec_keys]; decide
  have hk3 : (docVec (fun _ : ℚ => (1 : ℚ))
      ([[], [], ["jupiter"], ["kamino"]] : List (List String)).length
      [[], [], ["jupiter"], ["kamino"]] ["kamino"]).map Prod.fst = ["kamino"] := by
    rw [docVec_keys]; decide
  have hne2 : docVec (fun _ : ℚ => (1 : ℚ))
      ([[], [], ["jupiter"], ["kamino"]] : List (List String)).length
      [[], [], ["jupiter"], ["kamino"]] ["jupiter"] ≠ [] := by
    intro h
    rw [← @List.map_eq_nil_iff _ _ Prod.fst _] at h
    rw [hk2] at h
    exact absurd h (by decide)
  have hne3 : docVec (fun _ : ℚ => (1 : ℚ))
      ([[], [], ["jupiter"], ["kamino"]] : List (List String)).length
      [[], [], ["jupiter"], ["kamino"]] ["kamino"] ≠ [] := by
    intro h
    rw [← @List.map_eq_nil_iff _ _ Prod.fst _] at h
    rw [hk3] at h
    exact absurd h (by decide)
  have hc23 : cosGe (docVec (fun _ : ℚ => (1 : ℚ))
      ([[], [], ["jupiter"], ["kamino"]] : List (List String)).length
      [[], [], ["jupiter"], ["kamino"]] ["jupiter"])
      (docVec (fun _ : ℚ => (1 : ℚ))
        ([[], [], ["jupiter"], ["kamino"]] : List (List String)).length
        [[], [], ["jupiter"], ["kamino"]] ["kamino"]) (1/4) = false := by
    apply cosGe_no_common hne2 hne3
    unfold commonKeys
    rw [hk2, hk3]
    decide
  have hr : linkFold (fun a b : Nat =>
      cosGe ((tfidfVecs (fun _ : ℚ => (1 : ℚ)) [[], [], ["jupiter"], ["kamino"]]).getD a [])
        ((tfidfVecs (fun _ : ℚ => (1 : ℚ)) [[], [], ["jupiter"], ["kamino"]]).getD b [])
        (1/4)) 4 = id := by
    rw [linkFold, show pairList 4 = [(0, 1), (0, 2), (0, 3), (1, 2), (1, 3), (2, 3)]
      from by decide]
    simp only [List.foldl_cons, List.foldl_nil, hg0, hg1, hg2, hg3, cosGe_nil_left, hc23,
      Bool.false_eq_true, if_false]
  intro hex
  obtain ⟨c, hc, hm0, hm1⟩ := hex
  rw [preClusterSignals, if_neg (by decide)] at hc
  simp only [] at hc
  rw [hdocs] at hc
  rw [show ([{ name := some "ab", url := some "x" }, { name := some "ab", url := some "y" },
      { name := some "jupiter" }, { name := some "kamino" }] : List Signal).length = 4
    from by decide] at hc
  rw [hr] at hc
  rw [show (([{ name := some "ab", url := some "x" }, { name := some "ab", url := some "y" },
        { name := some "jupiter" }, { name := some "kamino" }] : List Signal).enum.foldl
        (fun acc p => addBucket acc (id p.1) p.2) []).map Prod.snd =
      [[{ name := some "ab", url := some "x" }], [{ name := some "ab", url := some "y" }],
       [{ name := some "jupiter" }], [{ name := some "kamino" }]]
    from by decide] at hc
  rw [show sortBy clusterGe
      [[({ name := some "ab", url := some "x" } : Signal)],
       [{ name := some "ab", url := some "y" }],
       [{ name := some "jupiter" }], [{ name := some "kamino" }]] =
      [[({ name := some "ab", url := some "x" } : Signal)],
       [{ name := some "ab", url := some "y" }],
       [{ name := some "jupiter" }], [{ name := some "kamino" }]]
    from by simp [sortBy, insSorted, clusterGe, maxScoreOf]] at hc
  simp only [List.mem_cons, List.not_mem_nil, or_false] at hc
  rcases hc with rfl | rfl | rfl | rfl
  · exact absurd hm1 (by decide)
  · exact absurd hm0 (by decide)
  · exact absurd hm0 (by decide)
  · exact absurd hm0 (by decide)

/-! ### The narrative store (`narrative_store.py`)

The persistent store is a dict of entries keyed by id plus a
`total_pipeline_runs` counter; it is embedded as an insertion-ordered
association list (Python dicts preserve insertion order and cannot repeat a
key).  ISO timestamps are modelled as rational epoch seconds: the source only
ever writes `_now_iso()`, parses it back with `fromisoformat` (a lossless
round trip) and compares; the wall clock of one `merge_narratives` run is the
explicit parameter `now`.  `_stable_id` (a truncated SHA-256 hex digest) is
threaded as an arbitrary deterministic function parameter `stableId`; no
claim depends on its values, only on the collision-resolving suffix loop.
The unparsable-timestamp `except` branch corresponds to `faded_at = none`. -/

/-- One entry of a `confidence_history`/`direction_history` log:
`{"time": ..., "confidence"/"direction": ...}`. -/
structure HistPoint where
  time : ℚ
  value : String
deriving DecidableEq, Repr

/-- One supporting-signal record (`{text, url, source, comment}`, plus the
`score` the dedup reads). -/
structure SupportingSignal where
  text : Option String := none
  url : Option String := none
  source : Option String := none
  comment : Option String := none
  score : Option ℚ := none
deriving DecidableEq, Repr

/-- A `NarrativeProposal` as consumed by `merge_narratives` (every key is
read through `dict.get` with a default). -/
structure Proposal where
  name : Option String := none
  confidence : Option String := none
  direction : Option String := none
  explanation : Option String := none
  trend_evidence : Option String := none
  market_opportunity : Option String := none
  topics : Option (List String) := none
  ideas : Option (List String) := none
  references : Option (List String) := none
  supporting_signals : Option (List SupportingSignal) := none
deriving DecidableEq, Repr

/-- A persistent `NarrativeEntry`.  `ideas` payloads are opaque to the store;
they are modelled as string lists. -/
structure NEntry where
  id : String := ""
  name : String := ""
  canonical_name : String := ""
  status : String := "ACTIVE"
  first_detected : Option ℚ := none
  last_detected : Option ℚ := none
  last_updated : Option ℚ := none
  faded_at : Option ℚ := none
  detection_count : Nat := 0
  missed_count : Nat := 0
  current_confidence : Option String := none
  current_direction : Option String := none
  explanation : Option String := none
  trend_evidence : Option String := none
  market_opportunity : Option String := none
  topics : Option (List String) := none
  ideas : Option (List String) := none
  references : Option (List String) := none
  all_signals : Option (List SupportingSignal) := none
  confidence_history : Option (List HistPoint) := none
  direction_history : Option (List HistPoint) := none
deriving DecidableEq, Repr

/-- The narrative store (`{"narratives": {...}, "total_pipeline_runs": n}`). -/
structure Store where
  narratives : List (String × NEntry) := []
  total_pipeline_runs : Nat := 0
deriving DecidableEq, Repr

/-- The stop-word list of `_canonical`. -/
def storeStop : List String :=
  ["the", "and", "for", "with", "on", "in", "of", "a", "an", "to", "is",
   "solana", "sol", "protocol", "ecosystem", "network", "based", "powered"]

/-- `_canonical`: lowercase, split on non-alphanumeric runs, drop empty words
and stop words, join with single spaces. -/
def canonical (name : String) : String :=
  String.intercalate " "
    (((splitRun (fun c => !isLowAlnum c) [] (lowerStr name).data).map String.mk).filter
      (fun w => w ≠ "" ∧ w ∉ storeStop))

/-- `canonical.split()`: whitespace-run split, no empties. -/
def splitWsTokens (s : String) : List String :=
  ((splitRun (fun c => c.isWhitespace) [] s.data).map String.mk).filter (fun t => t ≠ "")

/-- `_word_set` (`set(canonical.split())`), as a duplicate-free list. -/
def wordSet (c : String) : List String := (splitWsTokens c).dedup

/-- `_word_overlap`: `|words(a) ∩ words(b)| / min(|words(a)|, |words(b)|)`,
0 when either set is empty. -/
def wordOverlap (a b : String) : ℚ :=
  if wordSet a = [] ∨ wordSet b = [] then 0
  else (((wordSet a).filter (fun w => w ∈ wordSet b)).length : ℚ) /
    (min (wordSet a).length (wordSet b).length : ℚ)

/-- `find_match`: the id of the best entry with overlap strictly above the
0.5 threshold, first-seen winning ties (strict `>` against the running best). -/
def findMatch (canon : String) (s : Store) : Option String :=
  (s.narratives.foldl
    (fun best p =>
      if best.2 < wordOverlap canon p.2.canonical_name
      then (some p.1, wordOverlap canon p.2.canonical_name) else best)
    ((none : Option String), (1/2 : ℚ))).1

/-- Replace the value stored under `url`, keeping its dict position, when the
new signal's score is strictly higher (`seen_urls[url] = s`). -/
def updateSeen : List (String × SupportingSignal) → String → SupportingSignal →
    List (String × SupportingSignal)
  | [], url, s => [(url, s)]
  | (u, e) :: rest, url, s =>
    if u = url then
      (if e.score.getD 0 < s.score.getD 0 then (u, s) :: rest else (u, e) :: rest)
    else (u, e) :: updateSeen rest url s

/-- One pass of `_dedup_signals`: URL-keyed signals into the `seen_urls` dict
(insertion-ordered), the rest into `no_url`. -/
def dedupStep (acc : List (String × SupportingSignal) × List SupportingSignal)
    (s : SupportingSignal) : List (String × SupportingSignal) × List SupportingSignal :=
  if s.url.getD "" = "" then (acc.1, acc.2 ++ [s])
  else (updateSeen acc.1 (s.url.getD "") s, acc.2)

/-- `_dedup_signals`: URL-keyed dedup keeping the higher score, then stable
descending sort by score, truncated to `cap`. -/
def dedupSignals (signals : List SupportingSignal) (cap : Nat) : List SupportingSignal :=
  let acc := signals.foldl dedupStep ([], [])
  (sortBy (fun x y => y.score.getD 0 ≤ x.score.getD 0) (acc.1.map Prod.snd ++ acc.2)).take cap

/-- Python `l[-n:]`. -/
def takeLast (n : Nat) (l : List HistPoint) : List HistPoint := l.drop (l.length - n)

/-- The matched branch of the merge loop. -/
def updateEntry (n : Proposal) (now : ℚ) (name canon : String) (e : NEntry) : NEntry :=
  { e with
    name := name
    canonical_name := canon
    last_detected := some now
    last_updated := some now
    detection_count := e.detection_count + 1
    missed_count := 0
    status := "ACTIVE"
    current_confidence := some (n.confidence.getD (e.current_confidence.getD "MEDIUM"))
    current_direction := some (n.direction.getD (e.current_direction.getD "EMERGING"))
    explanation := some (n.explanation.getD (e.explanation.getD ""))
    trend_evidence := some (n.trend_evidence.getD (e.trend_evidence.getD ""))
    market_opportunity := some (n.market_opportunity.getD (e.market_opportunity.getD ""))
    topics := some (n.topics.getD (e.topics.getD []))
    ideas := some (n.ideas.getD (e.ideas.getD []))
    references := some (n.references.getD (e.references.getD []))
    confidence_history := some (takeLast 20 ((e.confidence_history.getD []) ++
      [⟨now, n.confidence.getD (e.current_confidence.getD "MEDIUM")⟩]))
    direction_history := some (takeLast 20 ((e.direction_history.getD []) ++
      [⟨now, n.direction.getD (e.current_direction.getD "EMERGING")⟩]))
    all_signals := some (dedupSignals ((e.all_signals.getD []) ++
      (n.supporting_signals.getD [])) 30) }

/-- The unmatched branch of the merge loop: the freshly created entry. -/
def newEntry (nid name canon : String) (n : Proposal) (now : ℚ) : NEntry :=
  { id := nid
    name := name
    canonical_name := canon
    status := "ACTIVE"
    first_detected := some now
    last_detected := some now
    last_updated := some now
    faded_at := none
    detection_count := 1
    missed_count := 0
    current_confidence := some (n.confidence.getD "MEDIUM")
    current_direction := some (n.direction.getD "EMERGING")
    explanation := some (n.explanation.getD "")
    trend_evidence := some (n.trend_evidence.getD "")
    market_opportunity := some (n.market_opportunity.getD "")
    topics := some (n.topics.getD [])
    ideas := some (n.ideas.getD [])
    references := some (n.references.getD [])
    all_signals := some (dedupSignals (n.supporting_signals.getD []) 30)
    confidence_history := some [⟨now, n.confidence.getD "MEDIUM"⟩]
    direction_history := some [⟨now, n.direction.getD "EMERGING"⟩] }

/-- The `while nid in store: nid += "x"` collision loop, with enough fuel to
exhaust the key set. -/
def freshIdAux (keys : List String) : String → Nat → String
  | nid, 0 => nid
  | nid, fuel + 1 => if nid ∈ keys then freshIdAux keys (nid ++ "x") fuel else nid

def freshId (nid : String) (keys : List String) : String :=
  freshIdAux keys nid (keys.length + 1)

/-- One iteration of the proposal loop of `merge_narratives`, carrying the
evolving store and the `matched_ids` set. -/
def processProposal (stableId : String → String) (now : ℚ)
    (acc : Store × List String) (n : Proposal) : Store × List String :=
  let name := n.name.getD ""
  let canon := canonical name
  match findMatch canon acc.1 with
  | some mid =>
    ({ acc.1 with narratives := (acc.1.narratives.map
        (fun p => if p.1 = mid then (p.1, updateEntry n now name canon p.2) else p)) },
     mid :: acc.2)
  | none =>
    let nid := freshId (stableId canon) (acc.1.narratives.map Prod.fst)
    ({ acc.1 with narratives := acc.1.narratives ++ [(nid, newEntry nid name canon n now)] },
     nid :: acc.2)

/-- The whole proposal loop. -/
def processAll (stableId : String → String) (now : ℚ) (nars : List Proposal)
    (s : Store) : Store × List String :=
  nars.foldl (processProposal stableId now) (s, [])

/-- The post-loop fade pass on one unmatched entry: ACTIVE entries take a
miss and fade at `missed_count >= 3` with `faded_at = now`. -/
def fadeStep (now : ℚ) (e : NEntry) : NEntry :=
  if e.status = "ACTIVE" then
    if 3 ≤ e.missed_count + 1 then
      { e with missed_count := e.missed_count + 1, status := "FADED", faded_at := some now }
    else { e with missed_count := e.missed_count + 1 }
  else e

/-- The post-loop archive pass: FADED entries whose `faded_at` parses and is
more than 7 days old become ARCHIVED (`none` models the absent/unparsable
timestamp caught by the `except`). -/
def archiveStep (now : ℚ) (e : NEntry) : NEntry :=
  if e.status = "FADED" then
    match e.faded_at with
    | some f => if 7 * 86400 < now - f then { e with status := "ARCHIVED" } else e
    | none => e
  else e

/-- `merge_narratives`: bump the run counter, process every proposal, then
run the fade pass over unmatched entries and the archive pass over all
entries. -/
def mergeNarratives (stableId : String → String) (nars : List Proposal)
    (store : Store) (now : ℚ) : Store :=
  let res := processAll stableId now nars
    { store with total_pipeline_runs := store.total_pipeline_runs + 1 }
  let s3 : Store := { res.1 with narratives := (res.1.narratives.map
    (fun p => if p.1 ∈ res.2 then p else (p.1, fadeStep now p.2))) }
  { s3 with narratives := (s3.narratives.map (fun p => (p.1, archiveStep now p.2))) }

/-! ### Bookkeeping lemmas about the proposal loop -/

theorem processProposal_runs (stableId : String → String) (now : ℚ)
    (acc : Store × List String) (n : Proposal) :
    (processProposal stableId now acc n).1.total_pipeline_runs =
      acc.1.total_pipeline_runs := by
  unfold processProposal
  dsimp only
  split <;> rfl

theorem foldl_pp_runs (stableId : String → String) (now : ℚ) (nars : List Proposal) :
    ∀ acc : Store × List String,
      (nars.foldl (processProposal stableId now) acc).1.total_pipeline_runs =
        acc.1.total_pipeline_runs := by
  induction nars with
  | nil => intro acc; rfl
  | cons n ns ih =>
    intro acc
    rw [List.foldl_cons, ih, processProposal_runs]

theorem processProposal_matched_tail (stableId : String → String) (now : ℚ)
    (acc : Store × List String) (n : Proposal) :
    acc.2 ⊆ (processProposal stableId now acc n).2 := by
  unfold processProposal
  dsimp only
  split <;> exact List.subset_cons_self _ _

theorem foldl_pp_matched_mono (stableId : String → String) (now : ℚ) (nars : List Proposal) :
    ∀ acc : Store × List String,
      acc.2 ⊆ (nars.foldl (processProposal stableId now) acc).2 := by
  induction nars with
  | nil => intro acc; exact fun a ha => ha
  | cons n ns ih =>
    intro acc
    rw [List.foldl_cons]
    exact (processProposal_matched_tail stableId now acc n).trans (ih _)

theorem foldl_pp_unmatched_mem (stableId : String → String) (now : ℚ) (nars : List Proposal) :
    ∀ (acc : Store × List String) (k : String) (e : NEntry),
      (k, e) ∈ acc.1.narratives →
      k ∉ (nars.foldl (processProposal stableId now) acc).2 →
      (k, e) ∈ (nars.foldl (processProposal stableId now) acc).1.narratives := by
  induction nars with
  | nil => intro acc k e hmem _; exact hmem
  | cons n ns ih =>
    intro acc k e hmem hnot
    rw [List.foldl_cons] at hnot ⊢
    apply ih _ k e _ hnot
    have hknot : k ∉ (processProposal stableId now acc n).2 := fun hk =>
      hnot (foldl_pp_matched_mono stableId now ns _ hk)
    unfold processProposal at hknot ⊢
    dsimp only at hknot ⊢
    split at hknot
    · rename_i mid hfm
      have hkm : k ≠ mid := fun he => hknot (by rw [he]; exact List.mem_cons_self _ _)
      have himg := List.mem_map_of_mem
        (fun p => if p.1 = mid then (p.1, updateEntry n now (n.name.getD "")
          (canonical (n.name.getD "")) p.2) else p) hmem
      simp only [hkm, if_false, ite_false] at himg
      exact himg
    · exact List.mem_append_left _ hmem

theorem findMatch_aux_mem (canon : String) (l : List (String × NEntry)) :
    ∀ (b : Option String × ℚ) (x : String),
      (l.foldl (fun best p => if best.2 < wordOverlap canon p.2.canonical_name
        then (some p.1, wordOverlap canon p.2.canonical_name) else best) b).1 = some x →
      b.1 = some x ∨ ∃ e, (x, e) ∈ l := by
  induction l with
  | nil => intro b x h; exact Or.inl h
  | cons p ps ih =>
    intro b x h
    rw [List.foldl_cons] at h
    rcases ih _ x h with h1 | ⟨e, he⟩
    · by_cases hc : b.2 < wordOverlap canon p.2.canonical_name
      · rw [if_pos hc] at h1
        right
        refine ⟨p.2, ?_⟩
        have hx : p.1 = x := Option.some.inj h1
        have hp : p = (x, p.2) := by
          obtain ⟨p1, p2⟩ := p
          rw [← hx]
        rw [← hp]
        exact List.mem_cons_self _ _
      · rw [if_neg hc] at h1
        exact Or.inl h1
    · exact Or.inr ⟨e, List.mem_cons_of_mem _ he⟩

theorem findMatch_mem {canon : String} {s : Store} {mid : String}
    (h : findMatch canon s = some mid) : ∃ e, (mid, e) ∈ s.narratives := by
  unfold findMatch at h
  rcases findMatch_aux_mem canon s.narratives _ mid h with h1 | h2
  · exact absurd h1 (by simp)
  · exact h2

theorem updateEntry_status (n : Proposal) (now : ℚ) (name canon : String) (e : NEntry) :
    (updateEntry n now name canon e).status = "ACTIVE" := rfl

theorem updateEntry_missed (n : Proposal) (now : ℚ) (name canon : String) (e : NEntry) :
    (updateEntry n now name canon e).missed_count = 0 := rfl

/-- Every id recorded in `matched_ids` points at an entry that is ACTIVE with
`missed_count = 0` when the proposal loop finishes. -/
theorem foldl_pp_matched_active (stableId : String → String) (now : ℚ)
    (nars : List Proposal) :
    ∀ acc : Store × List String,
      (∀ k ∈ acc.2, ∃ e, (k, e) ∈ acc.1.narratives ∧ e.status = "ACTIVE" ∧
        e.missed_count = 0) →
      ∀ k ∈ (nars.foldl (processProposal stableId now) acc).2,
        ∃ e, (k, e) ∈ (nars.foldl (processProposal stableId now) acc).1.narratives ∧
          e.status = "ACTIVE" ∧ e.missed_count = 0 := by
  induction nars with
  | nil => intro acc h; exact h
  | cons n ns ih =>
    intro acc h
    rw [List.foldl_cons]
    apply ih
    intro k hk
    unfold processProposal at hk ⊢
    dsimp only at hk ⊢
    split at hk
    · rename_i mid hfm
      simp only [List.mem_cons] at hk
      rcases hk with heq | hk2
      · obtain ⟨e0, he0⟩ := findMatch_mem hfm
        rw [heq]
        refine ⟨updateEntry n now (n.name.getD "") (canonical (n.name.getD "")) e0, ?_,
          rfl, rfl⟩
        have himg := List.mem_map_of_mem
          (fun p => if p.1 = mid then (p.1, updateEntry n now (n.name.getD "")
            (canonical (n.name.getD "")) p.2) else p) he0
        simpa using himg
      · obtain ⟨e, hmem, hA, h0⟩ := h k hk2
        by_cases hkm : k = mid
        · rw [hkm]
          refine ⟨updateEntry n now (n.name.getD "") (canonical (n.name.getD "")) e, ?_,
            rfl, rfl⟩
          have himg := List.mem_map_of_mem
            (fun p => if p.1 = mid then (p.1, updateEntry n now (n.name.getD "")
              (canonical (n.name.getD "")) p.2) else p) hmem
          rw [hkm] at himg
          simpa using himg
        · refine ⟨e, ?_, hA, h0⟩
          have himg := List.mem_map_of_mem
            (fun p => if p.1 = mid then (p.1, updateEntry n now (n.name.getD "")
              (canonical (n.name.getD "")) p.2) else p) hmem
          simpa [hkm] using himg
    · rename_i hfm
      simp only [List.mem_cons] at hk
      rcases hk with heq | hk2
      · rw [heq]
        exact ⟨_, List.mem_append_right _ (List.mem_singleton.mpr rfl), rfl, rfl⟩
      · obtain ⟨e, hmem, hA, h0⟩ := h k hk2
        exact ⟨e, List.mem_append_left _ hmem, hA, h0⟩

/-- The fade-then-archive image of an ACTIVE entry: one more miss, fading to
FADED with `faded_at = now` exactly when the new count reaches 3 (a
just-faded entry is never archived in the same run: `now - now = 0`). -/
theorem fadeArchive_active {e : NEntry} (now : ℚ) (hA : e.status = "ACTIVE") :
    (archiveStep now (fadeStep now e)).missed_count = e.missed_count + 1 ∧
    (3 ≤ e.missed_count + 1 →
      (archiveStep now (fadeStep now e)).status = "FADED" ∧
      (archiveStep now (fadeStep now e)).faded_at = some now) ∧
    (e.missed_count + 1 < 3 →
      (archiveStep now (fadeStep now e)).status = "ACTIVE" ∧
      (archiveStep now (fadeStep now e)).faded_at = e.faded_at) := by
  unfold fadeStep archiveStep
  rw [if_pos hA]
  by_cases h3 : 3 ≤ e.missed_count + 1
  · rw [if_pos h3]
    have hnow : ¬ (7 * 86400 : ℚ) < now - now := by
      rw [sub_self]
      norm_num
    simp only [if_pos rfl, hnow, ite_false, if_false]
    exact ⟨rfl, fun _ => ⟨rfl, rfl⟩, fun h => absurd h3 (by omega)⟩
  · rw [if_neg h3]
    have hne : ¬ ({ e with missed_count := e.missed_count + 1 } : NEntry).status = "FADED" := by
      show ¬ e.status = "FADED"
      rw [hA]
      decide
    rw [if_neg hne]
    exact ⟨rfl, fun h => absurd h h3, fun _ => ⟨hA, rfl⟩⟩

theorem fadeArchive_faded {e : NEntry} (now : ℚ) (hF : e.status = "FADED") :
    (archiveStep now (fadeStep now e)).missed_count = e.missed_count ∧
    ((archiveStep now (fadeStep now e)).status = "FADED" ∨
      (archiveStep now (fadeStep now e)).status = "ARCHIVED") := by
  unfold fadeStep archiveStep
  have h1 : ¬ e.status = "ACTIVE" := by rw [hF]; decide
  rw [if_neg h1, if_pos hF]
  rcases hfa : e.faded_at with _ | f
  · exact ⟨rfl, Or.inl hF⟩
  · dsimp only
    split
    · exact ⟨rfl, Or.inr rfl⟩
    · exact ⟨rfl, Or.inl hF⟩

theorem fadeStep_archived {e : NEntry} (now : ℚ) (h : e.status = "ARCHIVED") :
    fadeStep now e = e := by
  unfold fadeStep
  rw [if_neg (by rw [h]; decide)]

theorem archiveStep_archived {e : NEntry} (now : ℚ) (h : e.status = "ARCHIVED") :
    archiveStep now e = e := by
  unfold archiveStep
  rw [if_neg (by rw [h]; decide)]

theorem archiveStep_active {e : NEntry} (now : ℚ) (h : e.status = "ACTIVE") :
    archiveStep now e = e := by
  unfold archiveStep
  rw [if_neg (by rw [h]; decide)]

/-- C10: every call to `merge_narratives` increments `total_pipeline_runs` by
exactly one, whatever the proposal list; and a run with an empty proposal
list still gives every ACTIVE entry one more miss. -/
theorem c10_run_counter_increment (stableId : String → String) (nars : List Proposal)
    (store : Store) (now : ℚ) :
    (mergeNarratives stableId nars store now).total_pipeline_runs =
      store.total_pipeline_runs + 1 ∧
    ∀ k e, (k, e) ∈ store.narratives → e.status = "ACTIVE" →
      ∃ e2, (k, e2) ∈ (mergeNarratives stableId [] store now).narratives ∧
        e2.missed_count = e.missed_count + 1 := by
  constructor
  · unfold mergeNarratives processAll
    dsimp only
    rw [foldl_pp_runs]
  · intro k e hmem hA
    refine ⟨archiveStep now (fadeStep now e), ?_, (fadeArchive_active now hA).1⟩
    unfold mergeNarratives processAll
    dsimp only [List.foldl_nil]
    have h1 : ((k : String), fadeStep now e) ∈ store.narratives.map
        (fun p => if p.1 ∈ ([] : List String) then p else (p.1, fadeStep now p.2)) := by
      have h0 := List.mem_map_of_mem
        (fun p : String × NEntry =>
          if p.1 ∈ ([] : List String) then p else (p.1, fadeStep now p.2)) hmem
      simpa using h0
    exact List.mem_map_of_mem (fun p => (p.1, archiveStep now p.2)) h1

/-- C2 (amended): `merge_narratives` leaves an ARCHIVED entry untouched
unless some proposal fuzzy-matches it — `find_match` does **not** filter by
status — in which case the matched branch revives the archived entry in
place (status ACTIVE, `missed_count` 0) instead of creating a duplicate.
So ARCHIVED is *not* terminal; see the counterexample for the revival. -/
theorem c2_archived_untouched_or_revived (stableId : String → String)
    (nars : List Proposal) (store : Store) (now : ℚ) (k : String) (e : NEntry)
    (hmem : (k, e) ∈ store.narratives) (hstat : e.status = "ARCHIVED") :
    (k ∉ (processAll stableId now nars
        { store with total_pipeline_runs := store.total_pipeline_runs + 1 }).2 →
      (k, e) ∈ (mergeNarratives stableId nars store now).narratives) ∧
    (k ∈ (processAll stableId now nars
        { store with total_pipeline_runs := store.total_pipeline_runs + 1 }).2 →
      ∃ e2, (k, e2) ∈ (mergeNarratives stableId nars store now).narratives ∧
        e2.status = "ACTIVE" ∧ e2.missed_count = 0) := by
  constructor
  · intro hnotm
    have h1 := foldl_pp_unmatched_mem stableId now nars
      ({ store with total_pipeline_runs := store.total_pipeline_runs + 1 }, []) k e hmem hnotm
    unfold mergeNarratives
    dsimp only
    have h2 := List.mem_map_of_mem
      (fun p : String × NEntry =>
        if p.1 ∈ (processAll stableId now nars
          { store with total_pipeline_runs := store.total_pipeline_runs + 1 }).2
        then p else (p.1, fadeStep now p.2)) h1
    simp only [hnotm, if_false, ite_false, fadeStep_archived now hstat] at h2
    have h3 := List.mem_map_of_mem
      (fun p : String × NEntry => (p.1, archiveStep now p.2)) h2
    simpa [archiveStep_archived now hstat] using h3
  · intro hm
    obtain ⟨e2, hmem2, hA2, h02⟩ := foldl_pp_matched_active stableId now nars
      ({ store with total_pipeline_runs := store.total_pipeline_runs + 1 }, [])
      (by intro k2 hk2; exact absurd hk2 (List.not_mem_nil _)) k hm
    refine ⟨e2, ?_, hA2, h02⟩
    unfold mergeNarratives
    dsimp only
    have h2 := List.mem_map_of_mem
      (fun p : String × NEntry =>
        if p.1 ∈ (processAll stableId now nars
          { store with total_pipeline_runs := store.total_pipeline_runs + 1 }).2
        then p else (p.1, fadeStep now p.2)) hmem2
    simp only [hm, if_true, ite_true] at h2
    have h3 := List.mem_map_of_mem
      (fun p : String × NEntry => (p.1, archiveStep now p.2)) h2
    simpa [archiveStep_active now hA2] using h3

/-- C4: per-run miss bookkeeping for an ACTIVE entry: a run whose proposals
do not match it increments `missed_count` by exactly one and fades it (with
`faded_at = now`) exactly when the count reaches 3; a FADED entry is never
incremented further (the count stays exactly where fading left it); a run
that does match an entry resets `missed_count` to 0 and status to ACTIVE. -/
theorem c4_miss_count_and_fade (stableId : String → String) (nars : List Proposal)
    (store : Store) (now : ℚ) (k : String) (e : NEntry)
    (hmem : (k, e) ∈ store.narratives) :
    (e.status = "ACTIVE" →
      k ∉ (processAll stableId now nars
        { store with total_pipeline_runs := store.total_pipeline_runs + 1 }).2 →
      ∃ e2, (k, e2) ∈ (mergeNarratives stableId nars store now).narratives ∧
        e2.missed_count = e.missed_count + 1 ∧
        (3 ≤ e.missed_count + 1 → e2.status = "FADED" ∧ e2.faded_at = some now) ∧
        (e.missed_count + 1 < 3 → e2.status = "ACTIVE" ∧ e2.faded_at = e.faded_at)) ∧
    (e.status = "FADED" →
      k ∉ (processAll stableId now nars
        { store with total_pipeline_runs := store.total_pipeline_runs + 1 }).2 →
      ∃ e2, (k, e2) ∈ (mergeNarratives stableId nars store now).narratives ∧
        e2.missed_count = e.missed_count ∧
        (e2.status = "FADED" ∨ e2.status = "ARCHIVED")) ∧
    (k ∈ (processAll stableId now nars
        { store with total_pipeline_runs := store.total_pipeline_runs + 1 }).2 →
      ∃ e2, (k, e2) ∈ (mergeNarratives stableId nars store now).narratives ∧
        e2.missed_count = 0 ∧ e2.status = "ACTIVE") := by
  refine ⟨?_, ?_, ?_⟩
  · intro hA hnotm
    have h1 := foldl_pp_unmatched_mem stableId now nars
      ({ store with total_pipeline_runs := store.total_pipeline_runs + 1 }, []) k e hmem hnotm
    obtain ⟨hm1, hm2, hm3⟩ := @fadeArchive_active e now hA
    refine ⟨archiveStep now (fadeStep now e), ?_, hm1, hm2, hm3⟩
    unfold mergeNarratives
    dsimp only
    have h2 := List.mem_map_of_mem
      (fun p : String × NEntry =>
        if p.1 ∈ (processAll stableId now nars
          { store with total_pipeline_runs := store.total_pipeline_runs + 1 }).2
        then p else (p.1, fadeStep now p.2)) h1
    simp only [hnotm, if_false, ite_false] at h2
    exact List.mem_map_of_mem (fun p : String × NEntry => (p.1, archiveStep now p.2)) h2
  · intro hF hnotm
    have h1 := foldl_pp_unmatched_mem stableId now nars
      ({ store with total_pipeline_runs := store.total_pipeline_runs + 1 }, []) k e hmem hnotm
    obtain ⟨hm1, hm2⟩ := @fadeArchive_faded e now hF
    refine ⟨archiveStep now (fadeStep now e), ?_, hm1, hm2⟩
    unfold mergeNarratives
    dsimp only
    have h2 := List.mem_map_of_mem
      (fun p : String × NEntry =>
        if p.1 ∈ (processAll stableId now nars
          { store with total_pipeline_runs := store.total_pipeline_runs + 1 }).2
        then p else (p.1, fadeStep now p.2)) h1
    simp only [hnotm, if_false, ite_false] at h2
    exact List.mem_map_of_mem (fun p : String × NEntry => (p.1, archiveStep now p.2)) h2
  · intro hm
    obtain ⟨e2, hmem2, hA2, h02⟩ := foldl_pp_matched_active stableId now nars
      ({ store with total_pipeline_runs := store.total_pipeline_runs + 1 }, [])
      (by intro k2 hk2; exact absurd hk2 (List.not_mem_nil _)) k hm
    refine ⟨e2, ?_, h02, hA2⟩
    unfold mergeNarratives
    dsimp only
    have h2 := List.mem_map_of_mem
      (fun p : String × NEntry =>
        if p.1 ∈ (processAll stableId now nars
          { store with total_pipeline_runs := store.total_pipeline_runs + 1 }).2
        then p else (p.1, fadeStep now p.2)) hmem2
    simp only [hm, if_true, ite_true] at h2
    have h3 := List.mem_map_of_mem
      (fun p : String × NEntry => (p.1, archiveStep now p.2)) h2
    simpa [archiveStep_active now hA2] using h3

/-- A concrete ARCHIVED entry used to exercise the C2 theorem. -/
def wEntryArch : NEntry :=
  { id := "k", name := "AI Trading Bots", canonical_name := "ai trading bots",
    status := "ARCHIVED", detection_count := 5 }

/-- A store holding only the archived entry. -/
def wStoreArch : Store := { narratives := [("k", wEntryArch)], total_pipeline_runs := 4 }

/-- Witness for C2: the archived entry of `wStoreArch` satisfies both
hypotheses, and the amended theorem applies to it. -/
theorem c2_archived_untouched_or_revived_witness :
    ("k", wEntryArch) ∈ wStoreArch.narratives ∧ wEntryArch.status = "ARCHIVED" ∧
    ((("k" : String) ∉ (processAll (fun _ => "h") 0 []
        { wStoreArch with total_pipeline_runs := wStoreArch.total_pipeline_runs + 1 }).2 →
      ("k", wEntryArch) ∈ (mergeNarratives (fun _ => "h") [] wStoreArch 0).narratives) ∧
    (("k" : String) ∈ (processAll (fun _ => "h") 0 []
        { wStoreArch with total_pipeline_runs := wStoreArch.total_pipeline_runs + 1 }).2 →
      ∃ e2, ("k", e2) ∈ (mergeNarratives (fun _ => "h") [] wStoreArch 0).narratives ∧
        e2.status = "ACTIVE" ∧ e2.missed_count = 0)) :=
  ⟨by decide, by decide,
    c2_archived_untouched_or_revived (fun _ => "h") [] wStoreArch 0 "k" wEntryArch
      (by decide) (by decide)⟩

/-- A concrete ACTIVE entry two misses from fading. -/
def wEntryAct : NEntry :=
  { id := "m", name := "Liquid Staking", canonical_name := "liquid staking",
    status := "ACTIVE", missed_count := 2, detection_count := 3 }

/-- A store holding only the active entry. -/
def wStoreAct : Store := { narratives := [("m", wEntryAct)], total_pipeline_runs := 7 }

/-- Witness for C4: the active entry of `wStoreAct` satisfies the membership
hypothesis and the theorem applies to it. -/
theorem c4_miss_count_and_fade_witness :
    ("m", wEntryAct) ∈ wStoreAct.narratives ∧
    ((wEntryAct.status = "ACTIVE" →
      ("m" : String) ∉ (processAll (fun _ => "h") 0 []
        { wStoreAct with total_pipeline_runs := wStoreAct.total_pipeline_runs + 1 }).2 →
      ∃ e2, ("m", e2) ∈ (mergeNarratives (fun _ => "h") [] wStoreAct 0).narratives ∧
        e2.missed_count = wEntryAct.missed_count + 1 ∧
        (3 ≤ wEntryAct.missed_count + 1 → e2.status = "FADED" ∧ e2.faded_at = some 0) ∧
        (wEntryAct.missed_count + 1 < 3 →
          e2.status = "ACTIVE" ∧ e2.faded_at = wEntryAct.faded_at)) ∧
    (wEntryAct.status = "FADED" →
      ("m" : String) ∉ (processAll (fun _ => "h") 0 []
        { wStoreAct with total_pipeline_runs := wStoreAct.total_pipeline_runs + 1 }).2 →
      ∃ e2, ("m", e2) ∈ (mergeNarratives (fun _ => "h") [] wStoreAct 0).narratives ∧
        e2.missed_count = wEntryAct.missed_count ∧
        (e2.status = "FADED" ∨ e2.status = "ARCHIVED")) ∧
    (("m" : String) ∈ (processAll (fun _ => "h") 0 []
        { wStoreAct with total_pipeline_runs := wStoreAct.total_pipeline_runs + 1 }).2 →
      ∃ e2, ("m", e2) ∈ (mergeNarratives (fun _ => "h") [] wStoreAct 0).narratives ∧
        e2.missed_count = 0 ∧ e2.status = "ACTIVE")) :=
  ⟨by decide, c4_miss_count_and_fade (fun _ => "h") [] wStoreAct 0 "m" wEntryAct (by decide)⟩

theorem wordOverlap_self {c : String} (h : wordSet c ≠ []) : wordOverlap c c = 1 := by
  unfold wordOverlap
  rw [if_neg (by simp [h])]
  have h1 : (wordSet c).filter (fun w => w ∈ wordSet c) = wordSet c :=
    List.filter_eq_self.mpr (fun w hw => by simpa using hw)
  have h2 : ((wordSet c).length : ℚ) ≠ 0 :=
    Nat.cast_ne_zero.mpr (List.length_pos.mpr h).ne'
  rw [h1, min_self, div_self h2]

theorem findMatch_singleton_self {k : String} {e : NEntry} {canon : String} {s : Store}
    (hs : s.narratives = [(k, e)]) (hc : e.canonical_name = canon)
    (h : wordSet canon ≠ []) : findMatch canon s = some k := by
  unfold findMatch
  rw [hs]
  simp only [List.foldl_cons, List.foldl_nil]
  rw [hc, wordOverlap_self h, if_pos (by norm_num : (1/2 : ℚ) < 1)]

theorem freshIdAux_succ (keys : List String) (nid : String) (f : Nat) :
    freshIdAux keys nid (f + 1) =
      if nid ∈ keys then freshIdAux keys (nid ++ "x") f else nid := rfl

theorem freshId_nil (x : String) : freshId x [] = x := by
  unfold freshId
  rw [freshIdAux_succ, if_neg (List.not_mem_nil _)]

/-- Reducing the proposal step when `find_match` misses. -/
theorem processProposal_none (stableId : String → String) (now : ℚ)
    (acc : Store × List String) (n : Proposal)
    (hfm : findMatch (canonical (n.name.getD "")) acc.1 = none) :
    processProposal stableId now acc n =
      ({ acc.1 with narratives := (acc.1.narratives ++
          [(freshId (stableId (canonical (n.name.getD ""))) (acc.1.narratives.map Prod.fst),
            newEntry (freshId (stableId (canonical (n.name.getD "")))
              (acc.1.narratives.map Prod.fst)) (n.name.getD "")
              (canonical (n.name.getD "")) n now)]) },
       freshId (stableId (canonical (n.name.getD ""))) (acc.1.narratives.map Prod.fst)
         :: acc.2) := by
  unfold processProposal
  dsimp only
  split
  · rename_i mid hfm2
    rw [hfm] at hfm2
    exact absurd hfm2 (by simp)
  · rfl

/-- Reducing the proposal step when `find_match` hits `mid`. -/
theorem processProposal_some (stableId : String → String) (now : ℚ)
    (acc : Store × List String) (n : Proposal) (mid : String)
    (hfm : findMatch (canonical (n.name.getD "")) acc.1 = some mid) :
    processProposal stableId now acc n =
      ({ acc.1 with narratives := (acc.1.narratives.map
          (fun p => if p.1 = mid then (p.1, updateEntry n now (n.name.getD "")
            (canonical (n.name.getD "")) p.2) else p)) },
       mid :: acc.2) := by
  unfold processProposal
  dsimp only
  split
  · rename_i mid2 hfm2
    rw [hfm] at hfm2
    rw [← Option.some.inj hfm2]
  · rename_i hfm2
    rw [hfm] at hfm2
    exact absurd hfm2 (by simp)

/-- `merge_narratives` of a single proposal on an empty store creates exactly
the one freshly keyed entry (the fade pass skips it, being matched, and the
archive pass leaves it ACTIVE). -/
theorem merge_on_empty (stableId : String → String) (P : Proposal) (now : ℚ) (r : Nat) :
    mergeNarratives stableId [P] { narratives := [], total_pipeline_runs := r } now =
      { narratives := [(stableId (canonical (P.name.getD "")),
          newEntry (stableId (canonical (P.name.getD ""))) (P.name.getD "")
            (canonical (P.name.getD "")) P now)],
        total_pipeline_runs := r + 1 } := by
  unfold mergeNarratives processAll
  simp only [List.foldl_cons, List.foldl_nil]
  simp only [processProposal_none stableId now
    (({ narratives := [], total_pipeline_runs := r + 1 } : Store), ([] : List String)) P rfl]
  simp only [List.map_nil, List.nil_append]
  simp only [freshId_nil]
  simp only [List.map_cons, List.map_nil, List.mem_singleton, if_true, ite_true]
  rw [archiveStep_active now rfl]

/-- `merge_narratives` of a single proposal on a single-entry store whose
entry's canonical name coincides with the proposal's matches and updates the
entry in place. -/
theorem merge_singleton_matched (stableId : String → String) (P : Proposal) (now : ℚ)
    (k : String) (e : NEntry) (r : Nat)
    (hc : e.canonical_name = canonical (P.name.getD ""))
    (h : wordSet (canonical (P.name.getD "")) ≠ []) :
    mergeNarratives stableId [P] { narratives := [(k, e)], total_pipeline_runs := r } now =
      { narratives := [(k, updateEntry P now (P.name.getD "")
          (canonical (P.name.getD "")) e)],
        total_pipeline_runs := r + 1 } := by
  unfold mergeNarratives processAll
  simp only [List.foldl_cons, List.foldl_nil]
  simp only [processProposal_some stableId now
    (({ narratives := [(k, e)], total_pipeline_runs := r + 1 } : Store), ([] : List String))
    P k (findMatch_singleton_self rfl hc h)]
  simp only [List.map_cons, List.map_nil, List.mem_singleton, if_true, ite_true]
  rw [archiveStep_active now rfl]

/-- C2 counterexample: `find_match` never looks at `status`, so a proposal
canonicalising to "ai trading bots" matches the ARCHIVED entry of
`wStoreArch` and the matched branch rewrites it in place: after the merge the
store still holds exactly one entry under the key "k", now ACTIVE with
`missed_count = 0` and an incremented `detection_count` — ARCHIVED is not
terminal and no duplicate entry is created. -/
theorem c2_counterexample :
    wEntryArch.status = "ARCHIVED" ∧
    canonical "AI Trading Bots" = wEntryArch.canonical_name ∧
    ∃ e2, (mergeNarratives (fun _ => "h") [{ name := some "AI Trading Bots" }]
        { narratives := [("k", wEntryArch)], total_pipeline_runs := 4 } 0).narratives
        = [("k", e2)] ∧
      e2.status = "ACTIVE" ∧ e2.missed_count = 0 ∧
      e2.detection_count = wEntryArch.detection_count + 1 := by
  refine ⟨rfl, by decide, ?_⟩
  rw [merge_singleton_matched (fun _ => "h") { name := some "AI Trading Bots" } 0 "k"
    wEntryArch 4 (by decide) (by decide)]
  exact ⟨_, rfl, rfl, rfl, rfl⟩

/-- C5 (amended): calling `merge_narratives([P])` on an empty store and again
with the same proposal yields exactly one entry for P's canonical name, with
`detection_count = 2` and `missed_count = 0` — provided the canonical name
contains at least one word. A proposal whose name canonicalises to the empty
string (every word a stop word, e.g. "solana") never matches anything and the
second run instead creates a duplicate entry; see the counterexample. -/
theorem c5_merge_twice_single_entry (stableId : String → String) (P : Proposal)
    (now now2 : ℚ)
    (h : wordSet (canonical (P.name.getD "")) ≠ []) :
    ∃ e, (mergeNarratives stableId [P]
        (mergeNarratives stableId [P] { narratives := [], total_pipeline_runs := 0 } now)
        now2).narratives =
      [(stableId (canonical (P.name.getD "")), e)] ∧
      e.canonical_name = canonical (P.name.getD "") ∧
      e.detection_count = 2 ∧ e.missed_count = 0 ∧ e.status = "ACTIVE" := by
  rw [merge_on_empty stableId P now 0]
  rw [merge_singleton_matched stableId P now2 _ _ _ rfl h]
  exact ⟨_, rfl, rfl, rfl, rfl, rfl⟩

/-- Witness for C5 at a concrete proposal whose canonical name is the
non-stop-word phrase "jupiter perps". -/
theorem c5_merge_twice_single_entry_witness :
    wordSet (canonical (({ name := some "Jupiter Perps" } : Proposal).name.getD "")) ≠ [] ∧
    ∃ e, (mergeNarratives (fun _ => "a") [{ name := some "Jupiter Perps" }]
        (mergeNarratives (fun _ => "a") [{ name := some "Jupiter Perps" }]
          { narratives := [], total_pipeline_runs := 0 } 0) 0).narratives =
      [((fun _ : String => "a") (canonical (({ name := some "Jupiter Perps" } :
          Proposal).name.getD "")), e)] ∧
      e.canonical_name = canonical (({ name := some "Jupiter Perps" } :
        Proposal).name.getD "") ∧
      e.detection_count = 2 ∧ e.missed_count = 0 ∧ e.status = "ACTIVE" :=
  ⟨by decide,
    c5_merge_twice_single_entry (fun _ => "a") { name := some "Jupiter Perps" } 0 0
      (by decide)⟩

/-- C5 counterexample: the proposal named "solana" canonicalises to the empty
string ("solana" is a store stop word), so `find_match` can never match the
entry it created (word overlap with the empty word set is 0); the second
`merge_narratives` run appends a second entry under the suffixed key "hx"
(the `_stable_id` collision loop) instead of bumping `detection_count` to 2:
the final store holds two entries for the same canonical name. -/
theorem c5_counterexample :
    canonical "solana" = "" ∧
    ((mergeNarratives (fun _ => "h") [{ name := some "solana" }]
        (mergeNarratives (fun _ => "h") [{ name := some "solana" }]
          { narratives := [], total_pipeline_runs := 0 } 0) 0).narratives.map
        Prod.fst = ["h", "hx"]) ∧
    ((mergeNarratives (fun _ => "h") [{ name := some "solana" }]
        (mergeNarratives (fun _ => "h") [{ name := some "solana" }]
          { narratives := [], total_pipeline_runs := 0 } 0) 0).narratives.map
        (fun p => p.2.canonical_name) = ["", ""]) := by
  have hinner : mergeNarratives (fun _ => "h") [{ name := some "solana" }]
      { narratives := [], total_pipeline_runs := 0 } 0 =
      { narratives := [("h", newEntry "h" "solana" "" { name := some "solana" } 0)],
        total_pipeline_runs := 1 } := by
    rw [merge_on_empty]
    rfl
  have hov0 : wordOverlap (canonical ((some "solana" : Option String).getD ""))
      (("h", newEntry "h" "solana" "" { name := some "solana" } 0).2.canonical_name)
      = 0 := by
    unfold wordOverlap
    rw [if_pos (Or.inl (by decide))]
  have hfm2 : findMatch (canonical ((some "solana" : Option String).getD ""))
      ({ narratives := [("h", newEntry "h" "solana" "" { name := some "solana" } 0)],
         total_pipeline_runs := 1 + 1 } : Store) = none := by
    unfold findMatch
    simp only [List.foldl_cons, List.foldl_nil]
    rw [hov0, if_neg (by norm_num : ¬((1/2 : ℚ) < 0))]
  have houter : mergeNarratives (fun _ => "h") [{ name := some "solana" }]
      { narratives := [("h", newEntry "h" "solana" "" { name := some "solana" } 0)],
        total_pipeline_runs := 1 } 0 =
      { narratives :=
          [("h", archiveStep 0 (fadeStep 0
              (newEntry "h" "solana" "" { name := some "solana" } 0))),
           ("hx", newEntry "hx" "solana" "" { name := some "solana" } 0)],
        total_pipeline_runs := 1 + 1 } := by
    unfold mergeNarratives processAll
    simp only [List.foldl_cons, List.foldl_nil]
    simp only [processProposal_none (fun _ => "h") 0
      (({ narratives := [("h", newEntry "h" "solana" "" { name := some "solana" } 0)],
          total_pipeline_runs := 1 + 1 } : Store), ([] : List String))
      { name := some "solana" } hfm2]
    rfl
  refine ⟨by decide, ?_, ?_⟩
  · rw [hinner, houter]
    rfl
  · rw [hinner, houter]
    rfl

/-- Appending "x" to the candidate id strictly shrinks the set of keys long
enough to collide with it (pigeonhole for the `while nid in store` loop). -/
theorem countP_succ_lt (keys : List String) (nid : String) (hmem : nid ∈ keys) :
    keys.countP (fun k => nid.length + 1 ≤ k.length) <
      keys.countP (fun k => nid.length ≤ k.length) := by
  rw [List.countP_eq_length_filter, List.countP_eq_length_filter]
  have h1 : keys.filter (fun k => decide (nid.length + 1 ≤ k.length)) =
      (keys.filter (fun k => decide (nid.length ≤ k.length))).filter
        (fun k => decide (nid.length + 1 ≤ k.length)) := by
    rw [List.filter_filter]
    refine (List.filter_congr ?_).symm
    intro a _
    by_cases h : nid.length + 1 ≤ a.length
    · have h2 : nid.length ≤ a.length := by omega
      simp [h, h2]
    · simp [h]
  rw [h1]
  apply List.length_filter_lt_length_iff_exists.mpr
  refine ⟨nid, ?_, by simp⟩
  rw [List.mem_filter]
  exact ⟨hmem, by simp⟩

theorem freshIdAux_not_mem (keys : List String) :
    ∀ (fuel : Nat) (nid : String),
      keys.countP (fun k => nid.length ≤ k.length) < fuel →
      freshIdAux keys nid fuel ∉ keys := by
  intro fuel
  induction fuel with
  | zero => intro nid h; exact absurd h (Nat.not_lt_zero _)
  | succ f ih =>
    intro nid h
    by_cases hmem : nid ∈ keys
    · rw [freshIdAux_succ, if_pos hmem]
      apply ih
      have hlt := countP_succ_lt keys nid hmem
      have hlen : (nid ++ "x").length = nid.length + 1 := by
        rw [String.length_append]
        rfl
      simp only [hlen]
      omega
    · rw [freshIdAux_succ, if_neg hmem]
      exact hmem

theorem freshId_not_mem (x : String) (keys : List String) : freshId x keys ∉ keys := by
  unfold freshId
  exact freshIdAux_not_mem keys (keys.length + 1) x
    (Nat.lt_succ_of_le (List.countP_le_length _))

theorem updateEntry_id (n : Proposal) (now : ℚ) (name canon : String) (e : NEntry) :
    (updateEntry n now name canon e).id = e.id := rfl

theorem newEntry_id (nid name canon : String) (n : Proposal) (now : ℚ) :
    (newEntry nid name canon n now).id = nid := rfl

theorem fadeStep_id (now : ℚ) (e : NEntry) : (fadeStep now e).id = e.id := by
  unfold fadeStep
  split
  · split <;> rfl
  · rfl

theorem archiveStep_id (now : ℚ) (e : NEntry) : (archiveStep now e).id = e.id := by
  unfold archiveStep
  split
  · rcases hfa : e.faded_at with _ | f
    · rfl
    · dsimp only
      split <;> rfl
  · rfl

/-- A map that fixes the key of every pair fixes the key column. -/
theorem map_fst_keyfix (l : List (String × NEntry))
    (g : String × NEntry → String × NEntry) (hg : ∀ p, (g p).1 = p.1) :
    (l.map g).map Prod.fst = l.map Prod.fst := by
  rw [List.map_map]
  exact List.map_congr_left (fun p _ => hg p)

/-- The id-equals-key invariant survives any key-fixing, id-preserving map. -/
theorem inv_map_id (l : List (String × NEntry))
    (g : String × NEntry → String × NEntry) (hg : ∀ p, (g p).1 = p.1)
    (hgid : ∀ p, (g p).2.id = p.2.id)
    (h : ∀ p ∈ l, p.2.id = p.1) : ∀ p ∈ l.map g, p.2.id = p.1 := by
  intro p hp
  obtain ⟨q, hq, heq⟩ := List.mem_map.mp hp
  rw [← heq, hgid q, hg q]
  exact h q hq

theorem processProposal_inv (stableId : String → String) (now : ℚ)
    (acc : Store × List String) (n : Proposal)
    (hid : ∀ p ∈ acc.1.narratives, p.2.id = p.1)
    (hnd : (acc.1.narratives.map Prod.fst).Nodup) :
    (∀ p ∈ (processProposal stableId now acc n).1.narratives, p.2.id = p.1) ∧
    ((processProposal stableId now acc n).1.narratives.map Prod.fst).Nodup := by
  unfold processProposal
  dsimp only
  split
  · rename_i mid hfm
    dsimp only
    refine ⟨inv_map_id _ _
      (fun p => by by_cases hc : p.1 = mid
                   · rw [if_pos hc]
                   · rw [if_neg hc])
      (fun p => by by_cases hc : p.1 = mid
                   · rw [if_pos hc]
                     rfl
                   · rw [if_neg hc]) hid, ?_⟩
    rw [map_fst_keyfix _ _
      (fun p => by by_cases hc : p.1 = mid
                   · rw [if_pos hc]
                   · rw [if_neg hc])]
    exact hnd
  · rename_i hfm
    dsimp only
    constructor
    · intro p hp
      rcases List.mem_append.mp hp with h1 | h1
      · exact hid p h1
      · rw [List.mem_singleton] at h1
        rw [h1]
        rfl
    · rw [List.map_append]
      refine List.Nodup.append hnd (List.nodup_singleton _) ?_
      intro a ha hb
      rw [List.map_cons, List.map_nil, List.mem_singleton] at hb
      rw [hb] at ha
      exact freshId_not_mem _ _ ha

theorem foldl_pp_inv (stableId : String → String) (now : ℚ) (nars : List Proposal) :
    ∀ acc : Store × List String,
      (∀ p ∈ acc.1.narratives, p.2.id = p.1) →
      ((acc.1.narratives.map Prod.fst).Nodup) →
      (∀ p ∈ (nars.foldl (processProposal stableId now) acc).1.narratives,
        p.2.id = p.1) ∧
      ((nars.foldl (processProposal stableId now) acc).1.narratives.map
        Prod.fst).Nodup := by
  induction nars with
  | nil => intro acc h1 h2; exact ⟨h1, h2⟩
  | cons n ns ih =>
    intro acc h1 h2
    rw [List.foldl_cons]
    obtain ⟨g1, g2⟩ := processProposal_inv stableId now acc n h1 h2
    exact ih _ g1 g2

/-- C9: `merge_narratives` preserves the invariant that every stored entry's
`id` equals its key in the narratives map and that the keys are pairwise
distinct; freshly allocated ids that collide with an existing key are
deterministically "x"-suffixed until they fall outside the key set. -/
theorem c9_id_key_invariant (stableId : String → String) (nars : List Proposal)
    (store : Store) (now : ℚ)
    (hid : ∀ p ∈ store.narratives, p.2.id = p.1)
    (hnd : (store.narratives.map Prod.fst).Nodup) :
    (∀ p ∈ (mergeNarratives stableId nars store now).narratives, p.2.id = p.1) ∧
    ((mergeNarratives stableId nars store now).narratives.map Prod.fst).Nodup := by
  obtain ⟨g1, g2⟩ := foldl_pp_inv stableId now nars
    ({ store with total_pipeline_runs := store.total_pipeline_runs + 1 }, []) hid hnd
  unfold mergeNarratives
  dsimp only
  have hfade1 : ∀ p : String × NEntry,
      ((fun p : String × NEntry =>
        if p.1 ∈ (processAll stableId now nars
          { store with total_pipeline_runs := store.total_pipeline_runs + 1 }).2
        then p else (p.1, fadeStep now p.2)) p).1 = p.1 := by
    intro p
    dsimp only
    split <;> rfl
  have hfade2 : ∀ p : String × NEntry,
      ((fun p : String × NEntry =>
        if p.1 ∈ (processAll stableId now nars
          { store with total_pipeline_runs := store.total_pipeline_runs + 1 }).2
        then p else (p.1, fadeStep now p.2)) p).2.id = p.2.id := by
    intro p
    dsimp only
    split
    · rfl
    · exact fadeStep_id now p.2
  constructor
  · exact inv_map_id _ _ (fun p => rfl) (fun p => archiveStep_id now p.2)
      (inv_map_id _ _ hfade1 hfade2 g1)
  · rw [map_fst_keyfix _ (fun p : String × NEntry => (p.1, archiveStep now p.2))
      (fun p => rfl), map_fst_keyfix _ _ hfade1]
    exact g2

/-- A concrete two-entry store whose ids equal their keys. -/
def wStoreInv : Store :=
  { narratives := [("a", { id := "a" }), ("b", { id := "b" })], total_pipeline_runs := 0 }

/-- Witness for C9: a concrete two-entry store satisfying the invariant, fed
one proposal. -/
theorem c9_id_key_invariant_witness :
    (∀ p ∈ wStoreInv.narratives, p.2.id = p.1) ∧
    ((wStoreInv.narratives.map Prod.fst).Nodup) ∧
    ((∀ p ∈ (mergeNarratives (fun _ => "a") [{ name := some "Restaking" }]
        wStoreInv 0).narratives, p.2.id = p.1) ∧
    ((mergeNarratives (fun _ => "a") [{ name := some "Restaking" }]
        wStoreInv 0).narratives.map Prod.fst).Nodup) :=
  ⟨by decide, by decide,
    c9_id_key_invariant (fun _ => "a") [{ name := some "Restaking" }]
      wStoreInv 0 (by decide) (by decide)⟩

/-- A dynamically-typed Python value, as far as the engagement tiers of
`calculate_velocity` can observe one: an int, a str, or None (the values a
JSON-shaped signal dict can hold in a numeric field). -/
inductive PyVal where
  | int (n : Int)
  | str (s : String)
  | none
deriving DecidableEq, Repr

/-- Python 3 `v > n` against an int literal `n`: ints compare numerically; a
str or None left operand raises TypeError (Python 3 has no cross-type
ordering). -/
def pyGtInt : PyVal → Int → Except String Bool
  | .int m, n => .ok (n < m)
  | .str _, _ => .error "TypeError: not supported between instances of str and int"
  | .none, _ => .error "TypeError: not supported between instances of NoneType and int"

/-- The engagement-tier block of `calculate_velocity` for a twitter/reddit
signal, over the dynamically-typed value `signal.get("engagement", 0)`
produces (a missing field gives the int default 0). The Python if/elif
chain evaluates `engagement > 100` first, then `> 50`, then `> 10`; the
added score is 30/20/10/0. A TypeError in any comparison propagates. -/
def velocityEngagementAdd (engagement : PyVal) : Except String Nat := do
  let g100 ← pyGtInt engagement 100
  if g100 then pure 30
  else
    let g50 ← pyGtInt engagement 50
    if g50 then pure 20
    else
      let g10 ← pyGtInt engagement 10
      if g10 then pure 10 else pure 0

/-- C7 counterexample: a wrongly-typed field is not treated as its zero
value and the scorer does raise. In `calculate_velocity`, a twitter signal
whose `engagement` is the string "high" reaches `engagement > 100`, which
raises TypeError in Python 3 — it neither scores like the absent-field
default 0 (which adds 0) nor like any other tier; the same holds for a None
value. So the original claim's "wrongly-typed fields are treated as zero,
the functions never raise" is false of the source. -/
theorem c7_counterexample :
    velocityEngagementAdd (.str "high") =
      .error "TypeError: not supported between instances of str and int" ∧
    velocityEngagementAdd .none =
      .error "TypeError: not supported between instances of NoneType and int" ∧
    velocityEngagementAdd (.int 0) = .ok 0 ∧
    velocityEngagementAdd (.str "high") ≠ velocityEngagementAdd (.int 0) := by
  refine ⟨rfl, rfl, rfl, ?_⟩
  intro h
  exact Except.noConfusion h

/-- Witness for C10: the counter bump on a one-proposal run, and the missed
increment of a concrete ACTIVE entry on an empty run. -/
theorem c10_run_counter_increment_witness :
    (mergeNarratives (fun _ => "z") [{ name := some "Restaking" }]
        wStoreInv 0).total_pipeline_runs = wStoreInv.total_pipeline_runs + 1 ∧
    ∃ e2, (("a" : String), e2) ∈
        (mergeNarratives (fun _ => "z") [] wStoreInv 0).narratives ∧
      e2.missed_count = ({ id := "a" } : NEntry).missed_count + 1 :=
  ⟨(c10_run_counter_increment (fun _ => "z") [{ name := some "Restaking" }]
      wStoreInv 0).1,
    (c10_run_counter_increment (fun _ => "z") [{ name := some "Restaking" }]
      wStoreInv 0).2 "a" { id := "a" } (by decide) rfl⟩

end Radar
